import Mathlib

/-!
Verification of the `Datacube` class of `paramp` (`paramp/datacube/datacube.py`)
against its natural-language specification.

The Python class is shallowly embedded: the mutable object state becomes the
`Datacube` structure below, every method becomes a state-passing function, and
Python `dict`s become association lists with unique keys observed through
`List.lookup` (`dictInsert` models `d[k] = v`).  Python integers are unbounded,
so row indices, lengths and cursors are `Int`; the numpy table is a list of
rows over an arbitrary value type `α` with a zero (the numeric kinds of the
source are instances).  Notifications (`self.notify`) have no observable
effect on the embedded state and are dropped.
-/

namespace Paramp

/-- Python dict assignment `m[k] = v`: replaces the value bound to an existing
key, otherwise appends the new binding.  Keys stay unique. -/
def dictInsert {β : Type} (m : List (String × β)) (k : String) (v : β) :
    List (String × β) :=
  if m.any (fun p => p.1 == k) then m.map (fun p => if p.1 == k then (k, v) else p)
  else m ++ [(k, v)]

/-- State of one `Datacube` object: the `_meta` fields touched by the verified
methods (`fieldNames`, `fieldMap`, `index`, `length`) and the numpy table
`_table` as a list of rows. -/
structure Datacube (α : Type) where
  fieldNames : List String
  fieldMap : List (String × Nat)
  index : Int
  length : Int
  table : List (List α)
deriving DecidableEq

/-- Loop body of `Datacube.updateFieldMap`:
`for i in range(len(fieldNames)): fieldMap[fieldNames[i]] = i`. -/
def updateFieldMapFrom (names : List String) (i : Nat) (m : List (String × Nat)) :
    List (String × Nat) :=
  match names with
  | [] => m
  | n :: rest => updateFieldMapFrom rest (i + 1) (dictInsert m n i)

/-- `Datacube.updateFieldMap`: regenerate the field map from the field list. -/
def updateFieldMap (names : List String) : List (String × Nat) :=
  updateFieldMapFrom names 0 []

/-- `Datacube.initialize` (the fields of `_meta` we model, a fresh empty
table `zeros(0)` and no columns). -/
def initCube (α : Type) [Zero α] : Datacube α :=
  { fieldNames := [], fieldMap := [], index := 0, length := 0, table := [] }

/-- `Datacube.columnIndex(name)`: the field map entry of `name`, if any. -/
def Datacube.columnIndex {α : Type} (dc : Datacube α) (name : String) : Option Nat :=
  dc.fieldMap.lookup name

/-- `Datacube.columnName(index)`: scan the field map for a key bound to
`index` (field-map values are unique in reconciled states, so the scan order
of the Python dict does not matter). -/
def Datacube.columnName {α : Type} (dc : Datacube α) (index : Int) : Option String :=
  (dc.fieldMap.find? (fun p => (p.2 : Int) == index)).map (fun p => p.1)

/-- `Datacube.column(name)`: the committed slice `_table[:length, fieldMap[name]]`
of one column, or `None` for an unknown name.  Out-of-range reads default to
zero; reconciled states keep `length ≤ len(_table)` so the default is unused. -/
def Datacube.column {α : Type} [Zero α] (dc : Datacube α) (name : String) :
    Option (List α) :=
  match dc.fieldMap.lookup name with
  | some j => some ((List.range dc.length.toNat).map (fun r => (dc.table.getD r []).getD j 0))
  | none => none

/-- `Datacube._resize((rows, cols))` via `ndarray.resize`: value at an
unchanged `(row, col)` position is preserved, new cells are zero-filled,
shrinking truncates.  The source only calls this with the column count
unchanged, where this positional description matches numpy's flat row-major
resize. -/
def resizeTable {α : Type} [Zero α] (t : List (List α)) (rows cols : Nat) :
    List (List α) :=
  (List.range rows).map (fun r => (List.range cols).map (fun c => (t.getD r []).getD c 0))

/-- `Datacube._adjustTable(rowIndex, notifyFields, reserve)` (the
`notifyFields` flag only controls a notification and is dropped).
If the field list still agrees with the field map the table is only grown
when the requested row is missing; otherwise a fresh zero table is built and
every column whose name exists in the old field map is copied across.  The
field map is regenerated from the field list in all cases. -/
def Datacube.adjustTable {α : Type} [Zero α] (dc : Datacube α)
    (rowIndex : Option Int) (reserve : Int) : Datacube α :=
  let fieldNames := dc.fieldNames
  let fieldMap := dc.fieldMap
  let ta := dc.table
  let nbrCols := fieldNames.length
  let ri : Int := rowIndex.getD (dc.length - 1)
  let res : Int := max reserve 0
  let nbrRows : Int := ri + 2 + res
  let unchangedCols :=
    fieldNames.length == fieldMap.length &&
      fieldMap.all (fun p => fieldNames.get? p.2 == some p.1)
  if unchangedCols then
    if (ta.length : Int) ≤ ri then
      { dc with table := resizeTable ta nbrRows.toNat nbrCols,
                fieldMap := updateFieldMap fieldNames }
    else
      { dc with fieldMap := updateFieldMap fieldNames }
  else
    let nbrRows2 : Int := max nbrRows (ta.length : Int)
    let newtable :=
      (List.range nbrRows2.toNat).map (fun r =>
        (List.range nbrCols).map (fun i =>
          match (fieldNames.get? i).bind (fun nm => fieldMap.lookup nm) with
          | some j => if r < ta.length then (ta.getD r []).getD j 0 else 0
          | none => 0))
    { dc with table := newtable, fieldMap := updateFieldMap fieldNames }

/-- `Datacube.extendTo(rowIndex, reserve, extendLength)`. -/
def Datacube.extendTo {α : Type} [Zero α] (dc : Datacube α)
    (rowIndex : Option Int) (reserve : Int) (extendLength : Bool) : Datacube α :=
  let r : Int := rowIndex.getD dc.index
  let dc2 := dc.adjustTable (some r) reserve
  if extendLength ∧ dc2.length ≤ r then { dc2 with length := r + 1 } else dc2

/-- `Datacube.commit(rowIndex, gotoNextRow)`: validate the indicated (or
current) row, growing `length` to `rowIndex + 1` if needed, and advance the
cursor to `rowIndex + 1` when `gotoNextRow`. -/
def Datacube.commit {α : Type} [Zero α] (dc : Datacube α)
    (rowIndex : Option Int) (gotoNextRow : Bool) : Datacube α :=
  let r : Int := rowIndex.getD dc.index
  let dc2 := if dc.length ≤ r then dc.extendTo (some r) 0 true else dc
  if gotoNextRow then { dc2 with index := r + 1 } else dc2

/-- `Datacube.goTo(row)`: `if row <= length: index = row`. -/
def Datacube.goTo {α : Type} (dc : Datacube α) (row : Int) : Datacube α :=
  if row ≤ dc.length then { dc with index := row } else dc

/-- Row shift of `Datacube.removeRow`:
`_table[row:-1, :] = _table[row+1:, :]` (the last row keeps its old value). -/
def shiftRowsUp {α : Type} (t : List (List α)) (row : Nat) : List (List α) :=
  (List.range t.length).map (fun i =>
    if row ≤ i ∧ i + 1 < t.length then t.getD (i + 1) [] else t.getD i [])

/-- `Datacube.removeRow(row)` (the notification flag is dropped).  The cursor
test `index >= row` runs against the unmodified cursor.  Negative `row`
values are clamped in the table shift (numpy wrap-around is not modelled;
the verified claims only exercise the cursor arithmetic, which is exact). -/
def Datacube.removeRow {α : Type} (dc : Datacube α) (row : Int) : Datacube α :=
  let dc2 :=
    if row < dc.length then
      { dc with table := shiftRowsUp dc.table row.toNat, length := dc.length - 1 }
    else dc
  if row ≤ dc2.index then { dc2 with index := dc2.index - 1 } else dc2

/-- Loop of `Datacube.newColumnName`.  The `fuel` argument counts the
remaining iterations of the `while True` loop; the loop always breaks by the
time the incremented counter `i + 1` exceeds 1000, and the initial call
passes fuel 1000, so the fuel-exhausted fallback is unreachable. -/
def newColumnNameLoop (names : List String) : Nat → Nat → String × Nat
  | i, 0 => ("New_" ++ toString i, i + 1)
  | i, fuel + 1 =>
    let name := "New_" ++ toString i
    let i2 := i + 1
    if name ∉ names ∨ 1000 < i2 then (name, i2)
    else newColumnNameLoop names i2 fuel

/-- `Datacube.newColumnName()`: first unused name of the form `New_<i>`, with
the source's final test `if i <= 1000: return name; else: return None` run on
the already incremented counter. -/
def newColumnName (names : List String) : Option String :=
  let r := newColumnNameLoop names 1 1000
  if r.2 ≤ 1000 then some r.1 else none

/-- Stable insertion sort, modelling Python's stable `sorted` with key
comparison `le`. -/
def insSorted {β : Type} (le : β → β → Bool) (x : β) : List β → List β
  | [] => [x]
  | y :: ys => if le x y then x :: y :: ys else y :: insSorted le x ys

def sortedBy {β : Type} (le : β → β → Bool) : List β → List β
  | [] => []
  | x :: xs => insSorted le x (sortedBy le xs)

/-- Key order of `sorted(nameIndexDict, key=nameIndexDict.get)`: items are
compared by their target index, with the Python value `None` below every
integer. -/
def idxLe (a b : Option String × Option Int) : Bool :=
  match a.2, b.2 with
  | none, _ => true
  | some _, none => false
  | some x, some y => decide (x ≤ y)

/-- Target-position clamping of `Datacube._addFields`: a negative index is
recalculated relative to the end (`nbrCols + colIndex + 1`, floored at 0),
and a missing or too-large index becomes `nbrCols` (append at the end). -/
def insertPos (nbrCols : Nat) (colIndex : Option Int) : Nat :=
  match colIndex with
  | none => nbrCols
  | some v =>
    let v1 : Int :=
      if v < 0 then (if (nbrCols : Int) + v + 1 < 0 then 0 else (nbrCols : Int) + v + 1)
      else v
    if (nbrCols : Int) < v1 then nbrCols else v1.toNat

/-- One iteration of the `for name in sortedNames` loop of
`Datacube._addFields`: resolve a missing name through `newColumnName`, look
the name up in the (possibly stale) field map, and either record the existing
column index or insert the name into the field list at the clamped target
position. -/
def addFieldsStep {α : Type} (st : Datacube α × Bool × Option Int)
    (item : Option String × Option Int) : Datacube α × Bool × Option Int :=
  let dc := st.1
  let newField := st.2.1
  match (match item.1 with | none => newColumnName dc.fieldNames | some nm => some nm) with
  | none => (dc, newField, item.2)
  | some name =>
    match dc.columnIndex name with
    | none =>
      let pos := insertPos dc.fieldNames.length item.2
      ({ dc with fieldNames := dc.fieldNames.insertIdx pos name }, true, some (pos : Int))
    | some existing => (dc, newField, some (existing : Int))

/-- `Datacube._addFields(nameIndexDict, adjustTable)`: the dict items are
sorted by target index (Python `None` sorts below every integer, and the
sort is stable) and processed in order; returns the updated cube, whether a
new field was added, and the last column index.  A `None` name is resolved
through `newColumnName`; if even that fails the source would insert the
Python value `None` into the field list — that corner (999 auto-generated
names already taken) is unreachable in the verified claims and is modelled
as a skip. -/
def Datacube.addFields {α : Type} [Zero α] (dc : Datacube α)
    (nameIndexDict : List (Option String × Option Int)) (adjTable : Bool) :
    Datacube α × Bool × Option Int :=
  let sortedItems := sortedBy idxLe nameIndexDict
  let st := sortedItems.foldl addFieldsStep (dc, false, none)
  if adjTable then (st.1.adjustTable none 0, st.2.1, st.2.2) else st

/-- `_table[r, c] = v` (out-of-range writes are no-ops in the model; numpy
would raise, and the verified call sites stay in range after `extendTo`). -/
def setCell {α : Type} (t : List (List α)) (r c : Nat) (v : α) : List (List α) :=
  t.set r ((t.getD r []).set c v)

/-- Row-index resolution of `Datacube.set`:
`if rowIndex is None: rowIndex = self._meta["index"]`,
`elif rowIndex < 0: rowIndex = self._meta["length"] + rowIndex`, followed by
the clamp `if rowIndex < 0: rowIndex = 0`.  Note: the docstring of `set`
promises `length + 1 + rowIndex` for negative values; the code computes
`length + rowIndex`. -/
def setRowResolve (length index : Int) (rowIndex : Option Int) : Int :=
  let r : Int :=
    match rowIndex with
    | none => index
    | some ri => if ri < 0 then length + ri else ri
  if r < 0 then 0 else r

/-- `Datacube.set(rowIndex, notify, commit, columnOrder, extendLength, **keys)`
(`notify` only emits a notification and is dropped; `keys` holds the kwargs
dict in its iteration order, so its keys are distinct).  New columns named in
`columnOrder` are queued first, then the remaining new kwargs keys; all are
appended after the existing columns.  The table is then grown with the
500-row append reserve and the values written at the resolved row. -/
def Datacube.set {α : Type} [Zero α] (dc : Datacube α) (rowIndex : Option Int)
    (commitFlag : Bool) (columnOrder : List String) (extendLength : Bool)
    (keys : List (String × α)) : Datacube α :=
  let existingKeys := dc.fieldNames
  let sk1 := columnOrder.filter (fun k => k ∉ existingKeys)
  let specifiedKeys :=
    sk1 ++ (keys.map Prod.fst).filter (fun k => k ∉ sk1 ∧ k ∉ existingKeys)
  let nameIndexDict :=
    (specifiedKeys.foldl
      (fun (st : List (String × Nat) × Nat) k => (dictInsert st.1 k st.2, st.2 + 1))
      ([], existingKeys.length)).1
  let st := dc.addFields (nameIndexDict.map (fun p => (some p.1, some (p.2 : Int)))) false
  let dc1 := st.1
  let r := setRowResolve dc1.length dc1.index rowIndex
  let dc2 := dc1.extendTo (some r) 500 extendLength
  let dc3 := keys.foldl
    (fun d kv =>
      { d with table := setCell d.table r.toNat ((d.fieldMap.lookup kv.1).getD 0) kv.2 })
    dc2
  if keys.isEmpty then dc3
  else if commitFlag then dc3.commit (some r) true
  else dc3

/-- `if maxRow > self._meta["length"]: self._meta["length"] = maxRow`. -/
def bumpLength {α : Type} (dc : Datacube α) (m : Int) : Datacube α :=
  if dc.length < m then { dc with length := m } else dc

/-- `Datacube.createCol(name, columnIndex, offsetRow, values, notify)`
(notifications dropped). -/
def Datacube.createCol {α : Type} [Zero α] (dc : Datacube α) (name : Option String)
    (columnIndex : Option Int) (offsetRow : Int) (values : Option (List α)) :
    Datacube α :=
  let st := dc.addFields [(name, columnIndex)] false
  let dc1 := st.1
  let colIndex := st.2.2
  match values with
  | none => dc1.adjustTable none 0
  | some vs =>
    let o1 : Int := if offsetRow < 0 then dc1.length + offsetRow + 1 else offsetRow
    let o2 : Int := if o1 < 0 then 0 else o1
    let dc2 := bumpLength dc1 (o2 + vs.length)
    let dc3 := dc2.adjustTable none 0
    match colIndex with
    | some ci =>
      { dc3 with table :=
          vs.enum.foldl (fun t p => setCell t (o2.toNat + p.1) ci.toNat p.2) dc3.table }
    | none => dc3

/-- First loop of `Datacube.removeColumns`: turn names-or-indices into a
list of resolved names.  A string is kept when it is a field name; an
integer below the field count is resolved through `columnName` (possibly to
`None`, e.g. for negative indices); other items are dropped. -/
def removeColNames {α : Type} (dc : Datacube α) (xs : List (String ⊕ Int)) :
    List (Option String) :=
  xs.filterMap (fun x =>
    match x with
    | .inl s => if s ∈ dc.fieldNames then some (some s) else none
    | .inr i => if i < (dc.fieldNames.length : Int) then some (dc.columnName i) else none)

/-- Second loop of `Datacube.removeColumns`:
`for name in names: if name in fieldNames: del fieldNames[fieldNames.index(name)]`
(`None` entries are never members of the field list). -/
def eraseNames (fieldNames : List String) (names : List (Option String)) : List String :=
  names.foldl (fun fN n =>
    match n with
    | some s => if s ∈ fN then fN.erase s else fN
    | none => fN) fieldNames

/-- `Datacube.removeColumns(namesOrIndices, notify)` (notification dropped):
delete the matching columns from the field list, then reconcile table and
field map through `_adjustTable`. -/
def Datacube.removeColumns {α : Type} [Zero α] (dc : Datacube α)
    (namesOrIndices : List (String ⊕ Int)) : Datacube α :=
  let names := removeColNames dc namesOrIndices
  ({ dc with fieldNames := eraseNames dc.fieldNames names }).adjustTable none 0

/-- A Python exception surfaced by the model: numpy raises `IndexError` when
a 1-D array is sliced with two indices, and `list[0]` raises it on an empty
list. -/
inductive PyError where
  | indexError
deriving DecidableEq

/-- `Datacube.search(**kwargs)`.  Its first statement `dtype = self.table().dtype`
evaluates `self.table()`, i.e. `self._table[:length, :]`, which raises
`IndexError` while `_table` is still the initial 1-D `zeros(0)` set by
`initialize`.  In the model that state is exactly an empty table: the only
operations that replace `_table` are the `_adjustTable` resize (triggered only
when `rowIndex >= len(_table)`, giving a 2-D shape with
`nbrRows = rowIndex + 2 + reserve >= 2` rows) and the `_adjustTable` rebuild
(`nbrRows >= max(rowIndex + 2 + reserve, len(ta)) >= 1` rows), so a 2-D table
with zero rows never arises and emptiness marks the 1-D state.  After that,
any criteria column missing from the field map makes the whole call return
`[]`; an empty criteria dict then raises `IndexError` at `keys[0]`; otherwise
the committed row indices whose values match every named column are collected.
`close` stands for the numpy `allclose` comparison used by the source, applied
as `allclose(expected_cast_to_dtype, actual)`. -/
def Datacube.search {α : Type} [Zero α] (dc : Datacube α) (close : α → α → Bool)
    (criteria : List (String × α)) : Except PyError (List Nat) :=
  if dc.table.isEmpty then .error .indexError
  else if criteria.any (fun kv => (dc.column kv.1).isNone) then .ok []
  else
    match criteria with
    | [] => .error .indexError
    | c0 :: _ =>
      .ok ((List.range ((dc.column c0.1).getD []).length).filter
        (fun i => criteria.all (fun kv => close kv.2 (((dc.column kv.1).getD []).getD i 0))))

/-- Reading accessor for one table cell addressed by row index and column
name (`_table[i, fieldMap[name]]`), used to state what `search` returns. -/
def Datacube.cellAt {α : Type} [Zero α] (dc : Datacube α) (i : Nat) (name : String) : α :=
  (dc.table.getD i []).getD ((dc.fieldMap.lookup name).getD 0) 0

/-- Column-operation alphabet for the field-map invariant: a `createCol` call
or a `removeColumns` call (each of which ends by reconciling). -/
inductive ColOp (α : Type) where
  | create (name : Option String) (columnIndex : Option Int) (offsetRow : Int)
      (values : Option (List α))
  | remove (namesOrIndices : List (String ⊕ Int))

def applyOp {α : Type} [Zero α] (dc : Datacube α) : ColOp α → Datacube α
  | .create n ci o v => dc.createCol n ci o v
  | .remove xs => dc.removeColumns xs

def applyOps {α : Type} [Zero α] (dc : Datacube α) (ops : List (ColOp α)) : Datacube α :=
  ops.foldl applyOp dc

/-- Reconciled-state invariant: the field map was regenerated from the field
list and the field list is duplicate-free. -/
def SyncND {α : Type} (dc : Datacube α) : Prop :=
  dc.fieldMap = updateFieldMap dc.fieldNames ∧ dc.fieldNames.Nodup

/-- The value of `updateFieldMap` on a duplicate-free field list: each name
paired with its position, counted from `i`. -/
def withIdx : List String → Nat → List (String × Nat)
  | [], _ => []
  | n :: rest, i => (n, i) :: withIdx rest (i + 1)

/-- A datacube with one column `"a"`, committed length 1 (value 5 at row 0),
built through the public `set`/`commit` protocol. -/
def d1cube : Datacube Int :=
  ((initCube Int).set (some 0) false [] false [("a", 5)]).commit (some 0) true

/-- The scenario cube of the spec: columns `"a"`, `"b"`, rows committed at
indices 0 and 1 with values `(a=1, b=2)` and `(a=3, b=4)`. -/
def scenarioCube : Datacube Int :=
  ((((initCube Int).set (some 0) false [] false [("a", 1), ("b", 2)]).commit
      (some 0) true).set (some 1) false [] false [("a", 3), ("b", 4)]).commit
    (some 1) true

/-- A field list holding exactly the names `New_1` … `New_999`. -/
def bigNames : List String := (List.range 999).map (fun i => "New_" ++ toString (i + 1))

/-- Two raw `_addFields` calls with `adjustTable=False` followed by one
reconcile: the second membership check runs against the stale field map and
inserts `"a"` a second time. -/
def c4bad : Datacube Int :=
  (((initCube Int).addFields [(some "a", none)] false).1.addFields
      [(some "a", none)] false).1.adjustTable none 0

/-! ### The parent/child hierarchy

Nodes live in a world addressed by index, and attribute dicts live in a
separate heap, so that Python dict aliasing — in particular the defensive
copy made by `attributesOfChild` — is observable.  A new dict is allocated
by appending to the heap. -/

/-- One datacube node as seen by the hierarchy methods: its cursor
(`_meta["index"]`), its parent reference, and its `_children` list of
`ChildItem`s, each a pair (child node id, attribute dict reference). -/
structure HNode where
  index : Int
  parent : Option Nat
  children : List (Nat × Nat)
deriving DecidableEq

/-- A world of datacube nodes plus the heap of attribute dicts (attribute
values are modelled as integers; the mandatory `"row"` attribute is one). -/
structure HWorld where
  nodes : List HNode
  dicts : List (List (String × Int))
deriving DecidableEq

def getNode (w : HWorld) (i : Nat) : HNode := w.nodes.getD i ⟨0, none, []⟩

def updNode (w : HWorld) (i : Nat) (f : HNode → HNode) : HWorld :=
  { w with nodes := w.nodes.set i (f (getNode w i)) }

/-- `Datacube.children()` with no filter: the child cubes in attachment
order. -/
def childIds (w : HWorld) (p : Nat) : List Nat :=
  (getNode w p).children.map Prod.fst

/-- `Datacube.setParent(parent)` (its `metaUpdated` notification dropped). -/
def setParentW (w : HWorld) (c : Nat) (po : Option Nat) : HWorld :=
  updNode w c (fun nd => { nd with parent := po })

/-- `Datacube.removeChild(childCube)` with `deleteChildCube=False` (the only
form the verified claims exercise): each item matching the child cube has
the child's parent reference cleared and is removed from the parent's child
list. -/
def removeChildW (w : HWorld) (q c : Nat) : HWorld :=
  if c ∈ childIds w q then
    updNode (setParentW w c none) q
      (fun nd => { nd with children := nd.children.filter (fun it => it.1 ≠ c) })
  else w

/-- Error kind of the hierarchy attach: the spec's `InvalidHierarchy` (the
source raises a bare `Exception` with a message). -/
inductive DCError where
  | invalidHierarchy
deriving DecidableEq

/-- `Datacube.addChild(childCube, **kwargs)`: reject self-attach and
duplicate direct attach; default the `"row"` attribute to the current
cursor; allocate the `ChildItem`'s attribute dict; detach the child from any
previous parent; set the parent reference and append the item. -/
def attachAttrs (w : HWorld) (p : Nat) (kwargs : List (String × Int)) :
    List (String × Int) :=
  if kwargs.any (fun kv => kv.1 == "row") then kwargs
  else kwargs ++ [("row", (getNode w p).index)]

/-- Append the new `ChildItem` to the parent's child list. -/
def appendChild (w : HWorld) (p c ref : Nat) : HWorld :=
  updNode w p (fun nd => { nd with children := nd.children ++ [(c, ref)] })

def addChildW (w : HWorld) (p c : Nat) (kwargs : List (String × Int)) :
    Except DCError HWorld :=
  if c = p then .error .invalidHierarchy
  else if c ∈ childIds w p then .error .invalidHierarchy
  else
    let attributes := attachAttrs w p kwargs
    let ref := w.dicts.length
    let w1 : HWorld := { w with dicts := w.dicts ++ [attributes] }
    let w2 :=
      match (getNode w1 c).parent with
      | some q => removeChildW w1 q c
      | none => w1
    let w3 := setParentW w2 c (some p)
    .ok (appendChild w3 p c ref)

/-- `Datacube.attributesOfChild(childCube)`: find the child, allocate a
defensive copy of its attribute dict and return the copy's reference (a
missing child raises `AttributeError`, modelled by returning no
reference). -/
def attributesOfChildW (w : HWorld) (p c : Nat) : Option Nat × HWorld :=
  match (getNode w p).children.find? (fun it => it.1 == c) with
  | some it => (some w.dicts.length, { w with dicts := w.dicts ++ [w.dicts.getD it.2 []] })
  | none => (none, w)

/-- `Datacube.setChildAttributes(child, **kwargs)`: fetch the defensive copy
and assign the keyword pairs into it. -/
def setChildAttributesW (w : HWorld) (p c : Nat) (kwargs : List (String × Int)) :
    HWorld :=
  let r := attributesOfChildW w p c
  match r.1 with
  | some ref =>
    let newdict := kwargs.foldl (fun m kv => dictInsert m kv.1 kv.2) (r.2.dicts.getD ref [])
    { r.2 with dicts := r.2.dicts.set ref newdict }
  | none => r.2

/-- The attribute map a caller observes for a child of `p`: the content of
the dict that `attributesOfChild` copies. -/
def attrsValue (w : HWorld) (p c : Nat) : Option (List (String × Int)) :=
  ((getNode w p).children.find? (fun it => it.1 == c)).map (fun it => w.dicts.getD it.2 [])

/-- A three-node world: node 0 (cursor 5, no children yet), node 1 attached
as a child of node 2 through attribute dict 0. -/
def w0 : HWorld :=
  { nodes := [⟨5, none, []⟩, ⟨0, some 2, []⟩, ⟨7, none, [(1, 0)]⟩],
    dicts := [[("row", 3)]] }

/-! ### The children tree for name aggregation (Claim C9) -/

/-- A datacube as seen by the recursive name-aggregation methods: its field
names and its children cubes. -/
inductive DCTree where
  | mk (fieldNames : List String) (children : List DCTree)

def DCTree.fieldNames : DCTree → List String
  | .mk ns _ => ns

def DCTree.children : DCTree → List DCTree
  | .mk _ cs => cs

/-- Modelled from the spec: the method `depth()` that `Datacube.names` calls
does not exist anywhere in the repository (the call in `names` is its only
mention).  The spec says negative levels are counted from "the deepest
common level", the depth of the shallowest leaf, which is exactly what the
source's `commonDepth()` computes; `depth` is modelled as that deepest
common level. -/
def DCTree.depth : DCTree → Nat
  | .mk _ cs =>
    match cs.attach.map (fun c => DCTree.depth c.1) with
    | [] => 0
    | d :: ds => 1 + ds.foldl min d
decreasing_by
  have h := List.sizeOf_lt_of_mem c.2
  simp [DCTree.mk.sizeOf_spec]
  omega

/-- `list(set().union(*map(set, new)))`: the union of the children's name
lists (the Python set order is unspecified; only membership matters to the
claim). -/
def unionAll (ls : List (List String)) : List String := ls.flatten.dedup

/-- `Datacube.names(includeChildren, upToLevel, flatten=True)`; the
`flatten=False` variant returns a nested list structure the claim does not
touch.  A negative `upToLevel` is converted once, at the root of the call,
via `max(0, self.depth() + 1 + upToLevel)`; children are called with the
already-converted level minus one. -/
def namesF (t : DCTree) (includeChildren : Bool) (upToLevel : Int) : List String :=
  let ns := t.fieldNames
  if !includeChildren then ns
  else
    let u : Int :=
      if upToLevel < 0 then max 0 ((t.depth : Int) + 1 + upToLevel) else upToLevel
    if u = 0 ∨ t.children.isEmpty then ns
    else ns ++ unionAll (t.children.attach.map (fun c => namesF c.1 includeChildren (u - 1)))
termination_by sizeOf t
decreasing_by
  have h := List.sizeOf_lt_of_mem c.2
  cases t with
  | mk ns2 cs2 => simp_all [DCTree.children]; omega

/-- Stated from the claim: the node's own column names together with the
column names of all descendants at most `d` levels below the node. -/
def namesToLevel : DCTree → Nat → List String
  | t, 0 => t.fieldNames
  | t, d + 1 => t.fieldNames ++ (t.children.map (fun c => namesToLevel c d)).flatten

/-- A two-level tree: root column `"a"`, one child with column `"b"`. -/
def tEx : DCTree := .mk ["a"] [.mk ["b"] []]

/-! ### Frame lemmas for `_adjustTable` -/

theorem adjustTable_frame {α : Type} [Zero α] (dc : Datacube α)
    (ro : Option Int) (res : Int) :
    (dc.adjustTable ro res).length = dc.length ∧
      (dc.adjustTable ro res).index = dc.index ∧
      (dc.adjustTable ro res).fieldNames = dc.fieldNames ∧
      (dc.adjustTable ro res).fieldMap = updateFieldMap dc.fieldNames := by
  unfold Datacube.adjustTable
  dsimp only
  split
  · split <;> exact ⟨rfl, rfl, rfl, rfl⟩
  · exact ⟨rfl, rfl, rfl, rfl⟩

theorem extendTo_length {α : Type} [Zero α] (dc : Datacube α)
    (ro : Option Int) (res : Int) :
    (dc.extendTo ro res true).length =
      (if dc.length ≤ ro.getD dc.index then ro.getD dc.index + 1 else dc.length) ∧
      (dc.extendTo ro res true).index = dc.index := by
  unfold Datacube.extendTo
  dsimp only
  have hf := adjustTable_frame dc (some (ro.getD dc.index)) res
  split
  · rename_i h
    simp only [true_and] at h
    rw [hf.1] at h
    exact ⟨by simp [h], by simp [hf.2.1]⟩
  · rename_i h
    simp only [true_and] at h
    rw [hf.1] at h
    exact ⟨by simp [h, hf.1], by simp [hf.2.1]⟩

/-- Claim C1: for every datacube and every call
`commit(rowIndex = r, gotoNextRow = g)` with `r ≥ 0` (`r` defaulting to the
current cursor when omitted), after the call the committed length satisfies
`length ≥ r + 1`, and if `g` is true the cursor equals `r + 1`. -/
theorem commit_post {α : Type} [Zero α] (dc : Datacube α) (ro : Option Int)
    (g : Bool) (h : 0 ≤ ro.getD dc.index) :
    ro.getD dc.index + 1 ≤ (dc.commit ro g).length ∧
      (g = true → (dc.commit ro g).index = ro.getD dc.index + 1) := by
  unfold Datacube.commit
  dsimp only
  by_cases hle : dc.length ≤ ro.getD dc.index
  · have hlen := (extendTo_length dc (some (ro.getD dc.index)) 0).1
    simp only [Option.getD_some, hle, if_pos] at hlen
    cases g <;> simp [hle, hlen]
  · have hlt : ro.getD dc.index + 1 ≤ dc.length := by omega
    cases g <;> simp [hle, hlt]

theorem commit_post_witness :
    (0 : Int) + 1 ≤ ((initCube Int).commit (some 0) true).length ∧
      (true = true → ((initCube Int).commit (some 0) true).index = (0 : Int) + 1) :=
  commit_post (initCube Int) (some 0) true (by decide)

/-- Claim C3 counterexample: on a fresh datacube (cursor 0, length 0, so the
invariant `0 ≤ cursor ≤ length` holds), `goTo(-1)` is not rejected: it sets
the cursor to `-1`, changing the cursor although `-1 ∉ [0, length]` and
breaking the lower bound of the invariant. -/
theorem goTo_negative_cex :
    (initCube Int).index = 0 ∧ (initCube Int).length = 0 ∧
      ((initCube Int).goTo (-1)).index = -1 := by
  refine ⟨rfl, rfl, ?_⟩
  decide

/-- Claim C3 (amended): `goTo(r)` changes the cursor exactly when `r ≤ length`
— values above `length` are rejected as a no-op, but negative `r` is accepted
(never clamped or rejected), so the cursor can leave `[0, length]` from below;
`removeRow(row)` decrements the cursor exactly when `cursor ≥ row`, which can
drive a cursor at 0 down to `-1`. -/
theorem goTo_removeRow_cursor {α : Type} (dc : Datacube α) (r row : Int) :
    (r ≤ dc.length → (dc.goTo r).index = r) ∧
      (dc.length < r → dc.goTo r = dc) ∧
      ((dc.removeRow row).index =
        if row ≤ dc.index then dc.index - 1 else dc.index) := by
  refine ⟨?_, ?_, ?_⟩
  · intro h
    simp [Datacube.goTo, h]
  · intro h
    simp [Datacube.goTo, not_le.mpr h]
  · unfold Datacube.removeRow
    dsimp only
    by_cases h1 : row < dc.length <;> by_cases h2 : row ≤ dc.index <;> simp [h1, h2]

theorem goTo_removeRow_cursor_witness :
    ((0 : Int) ≤ (initCube Int).length → ((initCube Int).goTo 0).index = 0) ∧
      ((initCube Int).length < 0 → (initCube Int).goTo 0 = initCube Int) ∧
      (((initCube Int).removeRow 0).index =
        if (0 : Int) ≤ (initCube Int).index then (initCube Int).index - 1
        else (initCube Int).index) :=
  goTo_removeRow_cursor (initCube Int) 0 0

set_option maxRecDepth 100000 in
/-- Claim C2 (code bug): for a datacube of committed length `L = 1`, the
docstring of `set` and the spec promise that `rowIndex = -1` resolves to
`L + (-1) + 1 = 1`, the next append slot; the code computes
`length + rowIndex = 0`, so `set(rowIndex = -1, a = 7)` overwrites committed
row 0 instead of writing staged row 1. -/
theorem set_negative_row_eval :
    d1cube.length = 1 ∧
      setRowResolve d1cube.length d1cube.index (some (-1)) = 0 ∧
      d1cube.length + (-1) + 1 = 1 ∧
      ((d1cube.set (some (-1)) false [] false [("a", 7)]).table.getD 0 []).getD 0 0 = 7 ∧
      ((d1cube.set (some (-1)) false [] false [("a", 7)]).table.getD 1 []).getD 0 0 = 0 := by
  decide

/-! ### The field map as the inverse of the field list (Claim C4) -/

theorem lookup_cons_eq {β : Type} (x : String) (v : β) (t : List (String × β)) :
    List.lookup x ((x, v) :: t) = some v := by
  simp [List.lookup]

theorem lookup_cons_ne {β : Type} (x n : String) (v : β) (t : List (String × β))
    (h : x ≠ n) : List.lookup x ((n, v) :: t) = List.lookup x t := by
  have hb : (x == n) = false := beq_eq_false_iff_ne.mpr h
  simp [List.lookup, hb]

theorem dictInsert_fresh {β : Type} (m : List (String × β)) (k : String) (v : β)
    (h : ∀ p ∈ m, p.1 ≠ k) : dictInsert m k v = m ++ [(k, v)] := by
  have hc : m.any (fun p => p.1 == k) = false := by
    rw [List.any_eq_false]
    intro p hp
    simpa using h p hp
  simp [dictInsert, hc]

theorem updateFieldMapFrom_eq (names : List String) :
    ∀ (i : Nat) (m : List (String × Nat)), names.Nodup →
      (∀ n ∈ names, ∀ p ∈ m, p.1 ≠ n) →
      updateFieldMapFrom names i m = m ++ withIdx names i := by
  induction names with
  | nil => intro i m _ _; simp [updateFieldMapFrom, withIdx]
  | cons n rest ih =>
    intro i m hnd hf
    rw [updateFieldMapFrom, dictInsert_fresh m n i (fun p hp => hf n (by simp) p hp)]
    rw [ih (i + 1) (m ++ [(n, i)]) hnd.of_cons ?_]
    · simp [withIdx]
    · intro x hx p hp
      rcases List.mem_append.mp hp with h1 | h2
      · exact hf x (by simp [hx]) p h1
      · simp only [List.mem_singleton] at h2
        subst h2
        intro hnx
        have hnx2 : n = x := hnx
        subst hnx2
        exact (List.nodup_cons.mp hnd).1 hx

theorem updateFieldMap_eq (names : List String) (hnd : names.Nodup) :
    updateFieldMap names = withIdx names 0 := by
  simpa [updateFieldMap] using updateFieldMapFrom_eq names 0 [] hnd (by simp)

theorem lookup_withIdx_ge (names : List String) :
    ∀ (i j : Nat) (x : String), List.lookup x (withIdx names i) = some j → i ≤ j := by
  induction names with
  | nil => intro i j x h; simp [withIdx, List.lookup] at h
  | cons n rest ih =>
    intro i j x h
    rw [withIdx] at h
    by_cases hx : x = n
    · subst hx
      rw [lookup_cons_eq] at h
      have := Option.some.inj h
      omega
    · rw [lookup_cons_ne _ _ _ _ hx] at h
      have := ih (i + 1) j x h
      omega

theorem lookup_withIdx_some (names : List String) :
    ∀ (i j : Nat) (x : String), names.Nodup →
      (List.lookup x (withIdx names i) = some (i + j) ↔ names.get? j = some x) := by
  induction names with
  | nil => intro i j x _; simp [withIdx, List.lookup]
  | cons n rest ih =>
    intro i j x hnd
    rw [withIdx]
    by_cases hx : x = n
    · subst hx
      rw [lookup_cons_eq]
      constructor
      · intro h
        have hj : j = 0 := by
          have := Option.some.inj h
          omega
        subst hj
        simp
      · intro h
        match j with
        | 0 => simp
        | j' + 1 =>
          exfalso
          simp only [List.get?_cons_succ] at h
          exact (List.nodup_cons.mp hnd).1 (List.get?_mem h)
    · rw [lookup_cons_ne _ _ _ _ hx]
      constructor
      · intro h
        have hge := lookup_withIdx_ge rest (i + 1) (i + j) x h
        obtain ⟨j', rfl⟩ : ∃ j', j = j' + 1 := ⟨j - 1, by omega⟩
        rw [show i + (j' + 1) = (i + 1) + j' by omega] at h
        have := (ih (i + 1) j' x hnd.of_cons).mp h
        simpa using this
      · intro h
        match j with
        | 0 =>
          exfalso
          simp only [List.get?_cons_zero, Option.some.injEq] at h
          exact hx h.symm
        | j' + 1 =>
          simp only [List.get?_cons_succ] at h
          have := (ih (i + 1) j' x hnd.of_cons).mpr h
          rw [show (i + 1) + j' = i + (j' + 1) by omega] at this
          exact this

theorem lookup_withIdx_none (names : List String) :
    ∀ (i : Nat) (x : String), List.lookup x (withIdx names i) = none ↔ x ∉ names := by
  induction names with
  | nil => intro i x; simp [withIdx, List.lookup]
  | cons n rest ih =>
    intro i x
    rw [withIdx]
    by_cases hx : x = n
    · subst hx
      rw [lookup_cons_eq]
      simp
    · rw [lookup_cons_ne _ _ _ _ hx]
      rw [ih (i + 1) x]
      simp [hx]

theorem fieldMap_lookup_iff (names : List String) (hnd : names.Nodup) (x : String)
    (j : Nat) : (updateFieldMap names).lookup x = some j ↔ names.get? j = some x := by
  rw [updateFieldMap_eq names hnd]
  simpa using lookup_withIdx_some names 0 j x hnd

theorem fieldMap_lookup_none (names : List String) (hnd : names.Nodup) (x : String) :
    (updateFieldMap names).lookup x = none ↔ x ∉ names := by
  rw [updateFieldMap_eq names hnd]
  exact lookup_withIdx_none names 0 x

theorem insertPos_le (nbrCols : Nat) (ci : Option Int) : insertPos nbrCols ci ≤ nbrCols := by
  unfold insertPos
  cases ci with
  | none => exact Nat.le_refl _
  | some v =>
    dsimp only
    by_cases h1 : (nbrCols : Int) <
        (if v < 0 then (if (nbrCols : Int) + v + 1 < 0 then 0 else (nbrCols : Int) + v + 1)
          else v)
    · simp only [if_pos h1]
      exact Nat.le_refl _
    · simp only [if_neg h1]
      rw [Int.not_lt] at h1
      exact Int.toNat_le.mpr h1

theorem addFieldsStep_state {α : Type} (dc : Datacube α) (b : Bool) (ci0 : Option Int)
    (item : Option String × Option Int) :
    (addFieldsStep (dc, b, ci0) item).1.fieldMap = dc.fieldMap ∧
      (addFieldsStep (dc, b, ci0) item).1.index = dc.index ∧
      (addFieldsStep (dc, b, ci0) item).1.length = dc.length ∧
      (addFieldsStep (dc, b, ci0) item).1.table = dc.table ∧
      (dc.fieldMap = updateFieldMap dc.fieldNames → dc.fieldNames.Nodup →
        (addFieldsStep (dc, b, ci0) item).1.fieldNames.Nodup) := by
  unfold addFieldsStep
  dsimp only
  split
  · exact ⟨rfl, rfl, rfl, rfl, fun _ h => h⟩
  · rename_i name heq
    split
    · rename_i hci
      refine ⟨rfl, rfl, rfl, rfl, ?_⟩
      intro hsync hnd
      have hfresh : name ∉ dc.fieldNames := by
        rw [Datacube.columnIndex, hsync] at hci
        exact (fieldMap_lookup_none dc.fieldNames hnd name).mp hci
      have hperm := List.perm_insertIdx name dc.fieldNames
        (insertPos_le dc.fieldNames.length item.2)
      exact hperm.nodup_iff.mpr ((List.nodup_cons).mpr ⟨hfresh, hnd⟩)
    · exact ⟨rfl, rfl, rfl, rfl, fun _ h => h⟩

theorem addFields_single {α : Type} [Zero α] (dc : Datacube α)
    (item : Option String × Option Int) :
    dc.addFields [item] false = addFieldsStep (dc, false, none) item := rfl

theorem bumpLength_state {α : Type} (dc : Datacube α) (m : Int) :
    (bumpLength dc m).fieldNames = dc.fieldNames ∧
      (bumpLength dc m).fieldMap = dc.fieldMap ∧
      (bumpLength dc m).index = dc.index ∧ (bumpLength dc m).table = dc.table := by
  unfold bumpLength
  split <;> exact ⟨rfl, rfl, rfl, rfl⟩

theorem createCol_fields {α : Type} [Zero α] (dc : Datacube α) (name : Option String)
    (ci : Option Int) (o : Int) (vs : Option (List α)) :
    (dc.createCol name ci o vs).fieldNames =
        (addFieldsStep (dc, false, none) (name, ci)).1.fieldNames ∧
      (dc.createCol name ci o vs).fieldMap =
        updateFieldMap (addFieldsStep (dc, false, none) (name, ci)).1.fieldNames := by
  unfold Datacube.createCol
  rw [addFields_single]
  cases vs with
  | none =>
    have hf := adjustTable_frame (addFieldsStep (dc, false, none) (name, ci)).1 none 0
    exact ⟨hf.2.2.1, hf.2.2.2⟩
  | some v =>
    dsimp only
    split
    all_goals
      try dsimp only
      constructor
      · rw [(adjustTable_frame _ none 0).2.2.1, (bumpLength_state _ _).1]
      · rw [(adjustTable_frame _ none 0).2.2.2, (bumpLength_state _ _).1]

theorem createCol_syncnd {α : Type} [Zero α] (dc : Datacube α) (name : Option String)
    (ci : Option Int) (o : Int) (vs : Option (List α)) (h : SyncND dc) :
    SyncND (dc.createCol name ci o vs) := by
  obtain ⟨hsync, hnd⟩ := h
  have hstep := addFieldsStep_state dc false none (name, ci)
  have hndStep := hstep.2.2.2.2 hsync hnd
  have hfield := createCol_fields dc name ci o vs
  exact ⟨by rw [hfield.2, hfield.1], by rw [hfield.1]; exact hndStep⟩

theorem eraseNames_cons (l : List String) (n : Option String) (ns : List (Option String)) :
    eraseNames l (n :: ns) =
      eraseNames (match n with
        | some s => if s ∈ l then l.erase s else l
        | none => l) ns := rfl

theorem eraseNames_nodup (names : List (Option String)) :
    ∀ l : List String, l.Nodup → (eraseNames l names).Nodup := by
  induction names with
  | nil => intro l h; exact h
  | cons n ns ih =>
    intro l h
    rw [eraseNames_cons]
    apply ih
    match n with
    | none => exact h
    | some s =>
      dsimp only
      split
      · exact h.erase s
      · exact h

theorem removeColumns_syncnd {α : Type} [Zero α] (dc : Datacube α)
    (xs : List (String ⊕ Int)) (h : SyncND dc) : SyncND (dc.removeColumns xs) := by
  obtain ⟨hsync, hnd⟩ := h
  unfold Datacube.removeColumns
  dsimp only
  have hf := adjustTable_frame
    { dc with fieldNames := eraseNames dc.fieldNames (removeColNames dc xs) } none 0
  exact ⟨by rw [hf.2.2.2, hf.2.2.1], by rw [hf.2.2.1]; exact eraseNames_nodup _ _ hnd⟩

theorem applyOp_syncnd {α : Type} [Zero α] (dc : Datacube α) (op : ColOp α)
    (h : SyncND dc) : SyncND (applyOp dc op) := by
  cases op with
  | create n ci o v => exact createCol_syncnd dc n ci o v h
  | remove xs => exact removeColumns_syncnd dc xs h

theorem applyOps_syncnd {α : Type} [Zero α] (ops : List (ColOp α)) :
    ∀ dc : Datacube α, SyncND dc → SyncND (applyOps dc ops) := by
  induction ops with
  | nil => intro dc h; exact h
  | cons op rest ih => intro dc h; exact ih (applyOp dc op) (applyOp_syncnd dc op h)

/-- Claim C4 (amended): after any sequence of reconciling column operations
(`createCol` calls — the public form of `_addFields` — and `removeColumns`
calls) followed by reconcile (`_adjustTable`), the field map is the exact
inverse of the field list: it maps each name in the field list to its
position in that list and contains no other entries.  The claim as stated
also admits raw `_addFields` calls issued while the field map is out of sync
with the field list; those can insert a duplicate name, after which the map
is not an inverse (see the counterexample). -/
theorem fieldMap_inverse_ops {α : Type} [Zero α] (ops : List (ColOp α))
    (dc : Datacube α) (hsync : dc.fieldMap = updateFieldMap dc.fieldNames)
    (hnd : dc.fieldNames.Nodup) :
    (∀ n i, ((applyOps dc ops).adjustTable none 0).fieldMap.lookup n = some i ↔
        ((applyOps dc ops).adjustTable none 0).fieldNames.get? i = some n) ∧
      ∀ n, ((applyOps dc ops).adjustTable none 0).fieldMap.lookup n = none ↔
        n ∉ ((applyOps dc ops).adjustTable none 0).fieldNames := by
  obtain ⟨hs, hn⟩ := applyOps_syncnd ops dc ⟨hsync, hnd⟩
  have hf := adjustTable_frame (applyOps dc ops) none 0
  constructor
  · intro n i
    rw [hf.2.2.2, hf.2.2.1]
    exact fieldMap_lookup_iff _ hn n i
  · intro n
    rw [hf.2.2.2, hf.2.2.1]
    exact fieldMap_lookup_none _ hn n

theorem fieldMap_inverse_ops_witness :
    (∀ n i, ((applyOps (initCube Int) [ColOp.create (some "b") none 0 none]).adjustTable
          none 0).fieldMap.lookup n = some i ↔
        ((applyOps (initCube Int) [ColOp.create (some "b") none 0 none]).adjustTable
          none 0).fieldNames.get? i = some n) ∧
      ∀ n, ((applyOps (initCube Int) [ColOp.create (some "b") none 0 none]).adjustTable
          none 0).fieldMap.lookup n = none ↔
        n ∉ ((applyOps (initCube Int) [ColOp.create (some "b") none 0 none]).adjustTable
          none 0).fieldNames :=
  fieldMap_inverse_ops [ColOp.create (some "b") none 0 none] (initCube Int)
    (by decide) (by decide)

/-- Claim C4 counterexample: two raw `_addFields` calls with
`adjustTable=False` insert the name `"a"` twice, because the second
membership check runs against the stale field map; after the final
reconcile the field list is `["a", "a"]` and the field map sends `"a"` to 1,
so the map is not the exact inverse of the field list (nothing maps to
position 0 although `"a"` sits there). -/
theorem fieldMap_inverse_cex :
    c4bad.fieldNames = ["a", "a"] ∧ c4bad.fieldMap.lookup "a" = some 1 ∧
      ¬(c4bad.fieldMap.lookup "a" = some 0 ↔ c4bad.fieldNames.get? 0 = some "a") := by
  decide

/-! ### Search (Claim C5) -/

theorem getD_range_map {β : Type} (n i : Nat) (f : Nat → β) (d : β) :
    ((List.range n).map f).getD i d = if i < n then f i else d := by
  by_cases h : i < n
  · rw [List.getD_eq_getElem _ _ (by simpa using h)]
    simp [h]
  · rw [List.getD_eq_default _ _ (by simpa using Nat.le_of_not_lt h)]
    simp [h]

theorem column_of_lookup {α : Type} [Zero α] (dc : Datacube α) (name : String)
    (j : Nat) (h : dc.fieldMap.lookup name = some j) :
    dc.column name =
      some ((List.range dc.length.toNat).map (fun r => (dc.table.getD r []).getD j 0)) := by
  simp [Datacube.column, h]

theorem column_isSome {α : Type} [Zero α] (dc : Datacube α) (name : String) :
    (dc.column name).isSome = (dc.fieldMap.lookup name).isSome := by
  unfold Datacube.column
  cases h : dc.fieldMap.lookup name <;> simp

/-- The original Claim C5 fails on a fresh datacube: `search` evaluates
`self.table().dtype` before the unknown-column check, and on the initial 1-D
`zeros(0)` table this raises `IndexError`, so a call naming an unknown column
raises instead of returning `[]`. -/
theorem search_fresh_cex :
    (initCube Int).columnIndex "a" = none ∧
      (initCube Int).search (fun x y => x == y) [("a", 1)] = .error .indexError ∧
      ∀ rows : List Nat,
        (initCube Int).search (fun x y => x == y) [("a", 1)] ≠ .ok rows := by
  refine ⟨rfl, rfl, fun rows h => ?_⟩
  rw [show (initCube Int).search (fun x y => x == y) [("a", 1)] =
    .error .indexError from rfl] at h
  exact Except.noConfusion h

/-- Claim C5 (amended): `search` first evaluates `self.table().dtype`, which
raises `IndexError` on a datacube whose table is still the initial 1-D
`zeros(0)` buffer (empty in the model); on a datacube with a materialized
(non-empty) buffer and a non-empty criteria mapping, `search` returns exactly
the committed row indices (those in `[0, length)`) at which every named
column's value matches the expected value under the `allclose` comparison
`close`, in increasing order, and any unknown column name makes the whole
call return `[]`. -/
theorem search_spec {α : Type} [Zero α] (dc : Datacube α) (close : α → α → Bool)
    (criteria : List (String × α)) (hne : criteria ≠ []) :
    (dc.table.isEmpty = true → dc.search close criteria = .error .indexError) ∧
      (dc.table.isEmpty = false →
        ((∃ kv ∈ criteria, dc.columnIndex kv.1 = none) →
          dc.search close criteria = .ok []) ∧
          ((∀ kv ∈ criteria, (dc.columnIndex kv.1).isSome) →
            ∃ rows : List Nat,
              dc.search close criteria = .ok rows ∧
                rows = (List.range dc.length.toNat).filter
                    (fun i => criteria.all (fun kv => close kv.2 (dc.cellAt i kv.1))) ∧
                (∀ i : Nat, i ∈ rows ↔
                  ((i : Int) < dc.length ∧
                    ∀ kv ∈ criteria, close kv.2 (dc.cellAt i kv.1) = true)) ∧
                List.Pairwise (· < ·) rows)) := by
  refine ⟨fun htab => by simp [Datacube.search, htab], fun htab => ?_⟩
  constructor
  · intro ⟨kv, hkv, hnone⟩
    have hany : criteria.any (fun kv => (dc.column kv.1).isNone) = true := by
      rw [List.any_eq_true]
      refine ⟨kv, hkv, ?_⟩
      have hlook : dc.fieldMap.lookup kv.1 = none := hnone
      simp [Datacube.column, hlook]
    simp [Datacube.search, htab, hany]
  · intro hall
    have hany : criteria.any (fun kv => (dc.column kv.1).isNone) = false := by
      rw [List.any_eq_false]
      intro kv hkv
      have h2 : (dc.column kv.1).isSome = true := by
        rw [column_isSome]
        exact hall kv hkv
      cases hcol : dc.column kv.1 with
      | none => rw [hcol] at h2; simp at h2
      | some v => simp
    match criteria, hne with
    | c0 :: rest, _ =>
      obtain ⟨j0, hj0⟩ := Option.isSome_iff_exists.mp (hall c0 (by simp))
      have hcell : ∀ kv ∈ c0 :: rest, ∀ i < dc.length.toNat,
          ((dc.column kv.1).getD []).getD i 0 = dc.cellAt i kv.1 := by
        intro kv hkv i hi
        obtain ⟨j, hj⟩ := Option.isSome_iff_exists.mp (hall kv hkv)
        have hj2 : dc.fieldMap.lookup kv.1 = some j := hj
        rw [column_of_lookup dc kv.1 j hj2]
        simp only [Option.getD_some]
        rw [getD_range_map, if_pos hi]
        simp [Datacube.cellAt, hj2]
      have hlen : ((dc.column c0.1).getD []).length = dc.length.toNat := by
        rw [column_of_lookup dc c0.1 j0 hj0]
        simp
      have hok : dc.search close (c0 :: rest) =
          .ok ((List.range ((dc.column c0.1).getD []).length).filter
            (fun i => (c0 :: rest).all
              (fun kv => close kv.2 (((dc.column kv.1).getD []).getD i 0)))) := by
        unfold Datacube.search
        rw [htab, hany]
        rfl
      have hfix : (List.range ((dc.column c0.1).getD []).length).filter
            (fun i => (c0 :: rest).all
              (fun kv => close kv.2 (((dc.column kv.1).getD []).getD i 0)))
          = (List.range dc.length.toNat).filter
            (fun i => (c0 :: rest).all (fun kv => close kv.2 (dc.cellAt i kv.1))) := by
        rw [hlen]
        refine List.filter_congr ?_
        intro i hi
        have hi2 : i < dc.length.toNat := List.mem_range.mp hi
        rw [Bool.eq_iff_iff]
        simp only [List.all_eq_true]
        constructor
        · intro hx kv hkv
          rw [← hcell kv hkv i hi2]
          exact hx kv hkv
        · intro hx kv hkv
          rw [hcell kv hkv i hi2]
          exact hx kv hkv
      refine ⟨(List.range dc.length.toNat).filter
          (fun i => (c0 :: rest).all (fun kv => close kv.2 (dc.cellAt i kv.1))),
        by rw [hok, hfix], rfl, ?_, ?_⟩
      · intro i
        rw [List.mem_filter, List.mem_range, List.all_eq_true]
        constructor
        · intro ⟨h1, h2⟩
          exact ⟨Int.lt_toNat.mp h1, h2⟩
        · intro ⟨h1, h2⟩
          exact ⟨Int.lt_toNat.mpr h1, h2⟩
      · exact List.Pairwise.sublist (List.filter_sublist _) (List.pairwise_lt_range _)

set_option maxRecDepth 1000000 in
theorem search_spec_witness :
    scenarioCube.search (fun x y => x == y) [("a", 3)] = .ok [1] := by
  obtain ⟨rows, heq, hrows, -, -⟩ :=
    ((search_spec scenarioCube (fun x y => x == y) [("a", 3)] (by decide)).2
      (by decide)).2 (by decide)
  rw [heq, hrows]
  exact congrArg Except.ok (by decide)

/-! ### Column removal preserves everything else (Claim C6) -/

theorem withIdx_length (names : List String) : ∀ i, (withIdx names i).length = names.length := by
  induction names with
  | nil => intro i; rfl
  | cons n rest ih => intro i; simp [withIdx, ih]

theorem withIdx_mem_ge (names : List String) :
    ∀ (i : Nat) (p : String × Nat), p ∈ withIdx names i → i ≤ p.2 := by
  induction names with
  | nil => intro i p h; simp [withIdx] at h
  | cons n rest ih =>
    intro i p h
    rw [withIdx, List.mem_cons] at h
    rcases h with h | h
    · subst h; exact Nat.le_refl _
    · have := ih (i + 1) p h
      omega

theorem withIdx_mem_get (names : List String) :
    ∀ (i : Nat) (p : String × Nat), p ∈ withIdx names i →
      names.get? (p.2 - i) = some p.1 := by
  induction names with
  | nil => intro i p h; simp [withIdx] at h
  | cons n rest ih =>
    intro i p h
    rw [withIdx, List.mem_cons] at h
    rcases h with h | h
    · subst h; simp
    · have h1 := withIdx_mem_ge rest (i + 1) p h
      have h2 := ih (i + 1) p h
      have h3 : p.2 - i = (p.2 - (i + 1)) + 1 := by omega
      rw [h3, List.get?_cons_succ]
      exact h2

theorem updateFieldMap_length (names : List String) (hnd : names.Nodup) :
    (updateFieldMap names).length = names.length := by
  rw [updateFieldMap_eq names hnd, withIdx_length]

/-- In a reconciled state the `unchangedCols` test of `_adjustTable` passes. -/
theorem unchangedCols_true {α : Type} (dc : Datacube α)
    (hsync : dc.fieldMap = updateFieldMap dc.fieldNames) (hnd : dc.fieldNames.Nodup) :
    (dc.fieldNames.length == dc.fieldMap.length &&
      dc.fieldMap.all (fun p => dc.fieldNames.get? p.2 == some p.1)) = true := by
  rw [Bool.and_eq_true]
  constructor
  · rw [beq_iff_eq, hsync, updateFieldMap_length dc.fieldNames hnd]
  · rw [List.all_eq_true]
    intro p hp
    rw [hsync, updateFieldMap_eq dc.fieldNames hnd] at hp
    have := withIdx_mem_get dc.fieldNames 0 p hp
    simpa using this

/-- On a reconciled datacube whose committed rows fit in the table,
`_adjustTable(None, 0)` is the identity. -/
theorem adjustTable_id {α : Type} [Zero α] (dc : Datacube α)
    (hsync : dc.fieldMap = updateFieldMap dc.fieldNames) (hnd : dc.fieldNames.Nodup)
    (hlenB : dc.length ≤ (dc.table.length : Int)) : dc.adjustTable none 0 = dc := by
  unfold Datacube.adjustTable
  dsimp only
  simp only [Option.getD_none]
  rw [unchangedCols_true dc hsync hnd]
  simp only [if_true]
  rw [if_neg (by omega)]
  rw [← hsync]

/-- Rebuild branch of `_adjustTable(None, 0)`: when the field list disagrees
with the field map, a column of the rebuilt table named `n` holds, on the
committed slice, the old column that the old field map associates to `n`
(and zeros when the old map does not know `n`). -/
theorem adjustTable_column {α : Type} [Zero α] (X : Datacube α) (n : String) (i : Nat)
    (hcond : (X.fieldNames.length == X.fieldMap.length &&
      X.fieldMap.all (fun p => X.fieldNames.get? p.2 == some p.1)) = false)
    (hnd2 : X.fieldNames.Nodup)
    (hlook : (updateFieldMap X.fieldNames).lookup n = some i)
    (hlen0 : 0 ≤ X.length) (hlenB : X.length ≤ (X.table.length : Int)) :
    (X.adjustTable none 0).column n =
      some ((List.range X.length.toNat).map (fun r =>
        match X.fieldMap.lookup n with
        | some j => (X.table.getD r []).getD j 0
        | none => 0)) := by
  have hget : X.fieldNames.get? i = some n := (fieldMap_lookup_iff _ hnd2 n i).mp hlook
  have hil : i < X.fieldNames.length := by
    rcases List.get?_eq_some.mp hget with ⟨h, _⟩
    exact h
  unfold Datacube.adjustTable
  dsimp only
  simp only [Option.getD_none]
  rw [hcond]
  simp only [Bool.false_eq_true, if_false]
  unfold Datacube.column
  dsimp only
  rw [hlook]
  dsimp only
  congr 1
  apply List.map_congr_left
  intro r hr
  have hr2 : r < X.length.toNat := List.mem_range.mp hr
  have hrows : r < (max (X.length - 1 + 2 + max 0 0) (X.table.length : Int)).toNat := by
    omega
  rw [getD_range_map _ _ _ _, if_pos hrows]
  rw [getD_range_map _ _ _ _, if_pos hil]
  rw [hget]
  simp only [Option.some_bind]
  cases hl : X.fieldMap.lookup n with
  | none => rfl
  | some j =>
    dsimp only
    rw [if_pos (show r < X.table.length by omega)]

theorem eraseNames_eq_filter (names : List (Option String)) :
    ∀ l : List String, l.Nodup →
      eraseNames l names = l.filter (fun x => !(names.contains (some x))) := by
  induction names with
  | nil =>
    intro l _
    have h : ∀ x ∈ l, (!(([] : List (Option String)).contains (some x))) = true := by
      intro x _; rfl
    rw [List.filter_eq_self.mpr h]
    rfl
  | cons n ns ih =>
    intro l hnd
    rw [eraseNames_cons]
    cases n with
    | none =>
      dsimp only
      rw [ih l hnd]
      apply List.filter_congr
      intro x _
      simp [List.contains_cons]
    | some s =>
      dsimp only
      by_cases hs : s ∈ l
      · rw [if_pos hs, ih (l.erase s) (hnd.erase s),
          List.Nodup.erase_eq_filter hnd s, List.filter_filter]
        apply List.filter_congr
        intro x _
        simp only [List.contains_cons, Bool.not_or, beq_iff_eq, Option.some.injEq]
        exact Bool.and_comm _ _
      · rw [if_neg hs, ih l hnd]
        apply List.filter_congr
        intro x hx
        have hne : x ≠ s := fun he => hs (he ▸ hx)
        simp [List.contains_cons, hne]

theorem adjustTable_rebuild_table_len {α : Type} [Zero α] (X : Datacube α)
    (hcond : (X.fieldNames.length == X.fieldMap.length &&
      X.fieldMap.all (fun p => X.fieldNames.get? p.2 == some p.1)) = false) :
    (X.adjustTable none 0).table.length =
      (max (X.length - 1 + 2 + max 0 0) (X.table.length : Int)).toNat := by
  unfold Datacube.adjustTable
  dsimp only
  simp only [Option.getD_none]
  rw [hcond]
  simp only [Bool.false_eq_true, if_false]
  simp

/-- Re-adding a missing column name through `createCol` (no values) yields a
zero-filled column over the committed slice. -/
theorem readd_zero_column {α : Type} [Zero α] (R : Datacube α) (n : String) (dlen : Int)
    (hsyncR : R.fieldMap = updateFieldMap R.fieldNames)
    (hndR : R.fieldNames.Nodup)
    (hnotin : n ∉ R.fieldNames)
    (hlen0R : 0 ≤ R.length)
    (hlenBR : R.length ≤ (R.table.length : Int))
    (hRlen : R.length = dlen) :
    (R.createCol (some n) none 0 none).column n = some (List.replicate dlen.toNat 0) ∧
      (R.createCol (some n) none 0 none).length = dlen := by
  have hci : R.columnIndex n = none := by
    rw [Datacube.columnIndex, hsyncR]
    exact (fieldMap_lookup_none _ hndR n).mpr hnotin
  have hstep : addFieldsStep (R, false, none) (some n, none) =
      ({ R with fieldNames := R.fieldNames ++ [n] }, true,
        some (R.fieldNames.length : Int)) := by
    unfold addFieldsStep
    dsimp only
    rw [hci]
    dsimp only
    rw [show insertPos R.fieldNames.length none = R.fieldNames.length from rfl]
    rw [List.insertIdx_length_self]
  have hcc : R.createCol (some n) none 0 none =
      ({ R with fieldNames := R.fieldNames ++ [n] }).adjustTable none 0 := by
    unfold Datacube.createCol
    rw [addFields_single, hstep]
  have hndX2 : (R.fieldNames ++ [n]).Nodup :=
    (List.perm_append_singleton n R.fieldNames).nodup_iff.mpr
      (List.nodup_cons.mpr ⟨hnotin, hndR⟩)
  have hcond2 : ((({ R with fieldNames := R.fieldNames ++ [n] }) :
        Datacube α).fieldNames.length ==
      (({ R with fieldNames := R.fieldNames ++ [n] }) : Datacube α).fieldMap.length &&
      (({ R with fieldNames := R.fieldNames ++ [n] }) : Datacube α).fieldMap.all
        (fun p => (({ R with fieldNames := R.fieldNames ++ [n] }) :
          Datacube α).fieldNames.get? p.2 == some p.1)) = false := by
    have h1 : ((R.fieldNames ++ [n]).length == R.fieldMap.length) = false := by
      rw [hsyncR, updateFieldMap_length _ hndR]
      refine beq_eq_false_iff_ne.mpr ?_
      simp
    show ((R.fieldNames ++ [n]).length == R.fieldMap.length && _) = false
    rw [h1, Bool.false_and]
  have hlook2 : (updateFieldMap (R.fieldNames ++ [n])).lookup n =
      some R.fieldNames.length :=
    (fieldMap_lookup_iff _ hndX2 n R.fieldNames.length).mpr (List.get?_concat_length _ _)
  have hcol := adjustTable_column ({ R with fieldNames := R.fieldNames ++ [n] }) n
    R.fieldNames.length hcond2 hndX2 hlook2 hlen0R hlenBR
  have hnone2 : R.fieldMap.lookup n = none := by
    rw [hsyncR]
    exact (fieldMap_lookup_none _ hndR n).mpr hnotin
  rw [hcc]
  constructor
  · rw [hcol]
    simp only [hnone2]
    congr 1
    have hlenX2 : ({ R with fieldNames := R.fieldNames ++ [n] } :
        Datacube α).length = dlen := hRlen
    rw [hlenX2]
    apply List.eq_replicate.mpr
    constructor
    · simp
    · intro b hb
      rw [List.mem_map] at hb
      obtain ⟨r, _, he⟩ := hb
      exact he.symm
  · rw [(adjustTable_frame _ none 0).1]
    exact hRlen

/-- Claim C6: `removeColumns` removes exactly the matching columns and
nothing else.  With `L = removeColNames dc xs` the resolved matches: the
committed length is unchanged, the field list keeps exactly the unmatched
names in order, every remaining column keeps its committed values, the
matched columns' data is gone (their name no longer resolves), and re-adding
a removed name with `createCol` yields a zero-filled column of the same
committed length.  Unknown names and out-of-range indices never reach the
resolved list, so they are silently ignored. -/
theorem removeColumns_frame {α : Type} [Zero α] (dc : Datacube α)
    (xs : List (String ⊕ Int))
    (hsync : dc.fieldMap = updateFieldMap dc.fieldNames)
    (hnd : dc.fieldNames.Nodup)
    (hlen0 : 0 ≤ dc.length)
    (hlenB : dc.length ≤ (dc.table.length : Int)) :
    (dc.removeColumns xs).length = dc.length ∧
      (dc.removeColumns xs).fieldNames =
        dc.fieldNames.filter (fun x => !((removeColNames dc xs).contains (some x))) ∧
      (∀ n, ((removeColNames dc xs).contains (some n)) = false →
        (dc.removeColumns xs).column n = dc.column n) ∧
      (∀ n, ((removeColNames dc xs).contains (some n)) = true →
        (dc.removeColumns xs).columnIndex n = none) ∧
      (∀ n, ((removeColNames dc xs).contains (some n)) = true →
        ((dc.removeColumns xs).createCol (some n) none 0 none).column n =
            some (List.replicate dc.length.toNat 0) ∧
          ((dc.removeColumns xs).createCol (some n) none 0 none).length = dc.length) := by
  set L := removeColNames dc xs with hL
  set N2 := eraseNames dc.fieldNames L with hN2
  have hfilter : N2 = dc.fieldNames.filter (fun x => !(L.contains (some x))) :=
    eraseNames_eq_filter L dc.fieldNames hnd
  have hsub : N2.Sublist dc.fieldNames := by
    rw [hfilter]; exact List.filter_sublist _
  have hndN2 : N2.Nodup := by
    rw [hfilter]; exact hnd.filter _
  have hrem : dc.removeColumns xs = ({ dc with fieldNames := N2 }).adjustTable none 0 := rfl
  have frame := adjustTable_frame ({ dc with fieldNames := N2 }) none 0
  have hremLen : (dc.removeColumns xs).length = dc.length := by rw [hrem]; exact frame.1
  have hremNames : (dc.removeColumns xs).fieldNames = N2 := by rw [hrem]; exact frame.2.2.1
  have hremMap : (dc.removeColumns xs).fieldMap = updateFieldMap N2 := by
    rw [hrem]; exact frame.2.2.2
  have hmemN2 : ∀ n, n ∈ N2 ↔ (n ∈ dc.fieldNames ∧ (L.contains (some n)) = false) := by
    intro n
    rw [hfilter, List.mem_filter]
    simp
  -- the two ways `_adjustTable` can run, depending on whether anything matched
  by_cases hNN : N2 = dc.fieldNames
  case pos =>
    have hreceq : ({ dc with fieldNames := N2 } : Datacube α) = dc := by rw [hNN]
    have hid : dc.removeColumns xs = dc := by
      rw [hrem, hreceq]; exact adjustTable_id dc hsync hnd hlenB
    refine ⟨hremLen, by rw [hremNames, hfilter], ?_, ?_, ?_⟩
    · intro n _; rw [hid]
    · intro n hc
      have hn2 : n ∉ N2 := by
        rw [hmemN2]
        rintro ⟨_, hfalse⟩
        rw [hc] at hfalse
        exact Bool.true_eq_false.mp hfalse
      rw [Datacube.columnIndex, hremMap]
      exact (fieldMap_lookup_none N2 hndN2 n).mpr hn2
    · intro n hc
      have hn2 : n ∉ N2 := by
        rw [hmemN2]
        rintro ⟨_, hfalse⟩
        rw [hc] at hfalse
        exact Bool.true_eq_false.mp hfalse
      have hciNone : (dc.removeColumns xs).columnIndex n = none := by
        rw [Datacube.columnIndex, hremMap]
        exact (fieldMap_lookup_none N2 hndN2 n).mpr hn2
      exact readd_zero_column (dc.removeColumns xs) n dc.length
        (by rw [hremMap, hremNames]) (by rw [hremNames]; exact hndN2)
        (by rw [hremNames]; exact hn2) (by rw [hremLen]; exact hlen0)
        (by rw [hid]; exact hlenB) hremLen
  case neg =>
    have hlenN2 : N2.length ≠ dc.fieldNames.length := fun he => hNN (hsub.eq_of_length he)
    have hcond : ((({ dc with fieldNames := N2 }) : Datacube α).fieldNames.length ==
        (({ dc with fieldNames := N2 }) : Datacube α).fieldMap.length &&
        (({ dc with fieldNames := N2 }) : Datacube α).fieldMap.all
          (fun p => (({ dc with fieldNames := N2 }) : Datacube α).fieldNames.get? p.2 ==
            some p.1)) = false := by
      have h1 : (N2.length == dc.fieldMap.length) = false := by
        rw [hsync, updateFieldMap_length dc.fieldNames hnd]
        exact beq_eq_false_iff_ne.mpr hlenN2
      show (N2.length == dc.fieldMap.length && _) = false
      rw [h1, Bool.false_and]
    refine ⟨hremLen, by rw [hremNames, hfilter], ?_, ?_, ?_⟩
    · intro n hc
      by_cases hmem : n ∈ dc.fieldNames
      · have hmemN : n ∈ N2 := (hmemN2 n).mpr ⟨hmem, hc⟩
        have hlookN2 : (updateFieldMap N2).lookup n ≠ none :=
          fun h => ((fieldMap_lookup_none N2 hndN2 n).mp h) hmemN
        cases hi : (updateFieldMap N2).lookup n with
        | none => exact absurd hi hlookN2
        | some i =>
          have hlookD : dc.fieldMap.lookup n ≠ none := by
            rw [hsync]
            exact fun h => ((fieldMap_lookup_none dc.fieldNames hnd n).mp h) hmem
          cases hj : dc.fieldMap.lookup n with
          | none => exact absurd hj hlookD
          | some j =>
            have hcol := adjustTable_column ({ dc with fieldNames := N2 }) n i hcond
              hndN2 hi hlen0 hlenB
            rw [hrem, hcol, column_of_lookup dc n j hj]
            simp only [hj]
      · have hn2 : n ∉ N2 := fun h => hmem ((hmemN2 n).mp h).1
        have e1 : (dc.removeColumns xs).column n = none := by
          unfold Datacube.column
          rw [hremMap, (fieldMap_lookup_none N2 hndN2 n).mpr hn2]
        have e2 : dc.column n = none := by
          unfold Datacube.column
          rw [hsync, (fieldMap_lookup_none dc.fieldNames hnd n).mpr hmem]
        rw [e1, e2]
    · intro n hc
      have hn2 : n ∉ N2 := by
        rw [hmemN2]
        rintro ⟨_, hfalse⟩
        rw [hc] at hfalse
        exact Bool.true_eq_false.mp hfalse
      rw [Datacube.columnIndex, hremMap]
      exact (fieldMap_lookup_none N2 hndN2 n).mpr hn2
    · intro n hc
      have hn2 : n ∉ N2 := by
        rw [hmemN2]
        rintro ⟨_, hfalse⟩
        rw [hc] at hfalse
        exact Bool.true_eq_false.mp hfalse
      have hremTabLen : (dc.removeColumns xs).length ≤
          ((dc.removeColumns xs).table.length : Int) := by
        rw [hremLen, hrem, adjustTable_rebuild_table_len _ hcond]
        dsimp only
        omega
      exact readd_zero_column (dc.removeColumns xs) n dc.length
        (by rw [hremMap, hremNames]) (by rw [hremNames]; exact hndN2)
        (by rw [hremNames]; exact hn2) (by rw [hremLen]; exact hlen0)
        hremTabLen hremLen

set_option maxRecDepth 1000000 in
theorem removeColumns_frame_witness :
    (scenarioCube.removeColumns [Sum.inl "a"]).column "b" = some [2, 4] ∧
      (scenarioCube.removeColumns [Sum.inl "a"]).columnIndex "a" = none ∧
      ((scenarioCube.removeColumns [Sum.inl "a"]).createCol (some "a") none 0
          none).column "a" = some [0, 0] ∧
      ((scenarioCube.removeColumns [Sum.inl "a"]).createCol (some "a") none 0
          none).length = 2 := by
  have h := removeColumns_frame scenarioCube [Sum.inl "a"] (by decide) (by decide)
    (by decide) (by decide)
  refine ⟨?_, ?_, ?_, ?_⟩
  · rw [h.2.2.1 "b" (by decide)]
    decide
  · exact h.2.2.2.1 "a" (by decide)
  · rw [(h.2.2.2.2 "a" (by decide)).1]
    decide
  · rw [(h.2.2.2.2 "a" (by decide)).2]
    decide

/-! ### Automatic column naming (Claim C8) -/

theorem newColumnNameLoop_all_taken (names : List String) :
    ∀ (fuel i : Nat), i + fuel = 1001 → i ≤ 1000 →
      (∀ k, i ≤ k → k ≤ 999 → ("New_" ++ toString k) ∈ names) →
      (newColumnNameLoop names i fuel).2 = 1001 := by
  intro fuel
  induction fuel with
  | zero => intro i hinv hle _; omega
  | succ fuel ih =>
    intro i hinv hle hall
    rw [newColumnNameLoop]
    try dsimp only
    by_cases hbreak : ("New_" ++ toString i) ∉ names ∨ 1000 < i + 1
    · rw [if_pos hbreak]
      rcases hbreak with hnot | hgt
      · by_cases hi : i ≤ 999
        · exact absurd (hall i (Nat.le_refl _) hi) hnot
        · dsimp only; omega
      · dsimp only; omega
    · rw [if_neg hbreak]
      rw [not_or] at hbreak
      exact ih (i + 1) (by omega) (by omega)
        (fun k hk1 hk2 => hall k (by omega) hk2)

theorem newColumnNameLoop_first_free (names : List String) :
    ∀ (fuel i k : Nat), i + fuel = 1001 → i ≤ k → k ≤ 999 →
      ("New_" ++ toString k) ∉ names →
      (∀ j, i ≤ j → j < k → ("New_" ++ toString j) ∈ names) →
      newColumnNameLoop names i fuel = ("New_" ++ toString k, k + 1) := by
  intro fuel
  induction fuel with
  | zero => intro i k hinv hik hk _ _; omega
  | succ fuel ih =>
    intro i k hinv hik hk hfree hprev
    rw [newColumnNameLoop]
    try dsimp only
    by_cases hik2 : i = k
    · subst hik2
      rw [if_pos (Or.inl hfree)]
    · have hlt : i < k := by omega
      have hmem : ("New_" ++ toString i) ∈ names := hprev i (Nat.le_refl _) hlt
      rw [if_neg (by rw [not_or]; exact ⟨not_not_intro hmem, by omega⟩)]
      exact ih (i + 1) k (by omega) (by omega) hk hfree
        (fun j h1 h2 => hprev j (by omega) h2)

theorem newColumnName_none_iff (names : List String) :
    newColumnName names = none ↔
      (∀ k, 1 ≤ k → k ≤ 999 → ("New_" ++ toString k) ∈ names) := by
  constructor
  · intro h k h1 h2
    by_contra hfree
    have hex : ∃ k0, 1 ≤ k0 ∧ k0 ≤ 999 ∧ ("New_" ++ toString k0) ∉ names :=
      ⟨k, h1, h2, hfree⟩
    have hspec := Nat.find_spec hex
    have hmin := fun m (hm : m < Nat.find hex) => Nat.find_min hex hm
    have hloop := newColumnNameLoop_first_free names 1000 1 (Nat.find hex)
      (by omega) hspec.1 hspec.2.1 hspec.2.2 ?_
    · unfold newColumnName at h
      rw [hloop] at h
      dsimp only at h
      rw [if_pos (by omega)] at h
      exact Option.some_ne_none _ h
    · intro j hj1 hj2
      have := hmin j hj2
      by_contra hjout
      exact this ⟨hj1, by omega, hjout⟩
  · intro hall
    have hsnd := newColumnNameLoop_all_taken names 1000 1 (by omega) (by omega)
      (fun k hk1 hk2 => hall k hk1 hk2)
    unfold newColumnName
    dsimp only
    rw [if_neg (by omega)]

theorem newColumnName_first_free (names : List String) (k : Nat) (h1 : 1 ≤ k)
    (h2 : k ≤ 999) (hfree : ("New_" ++ toString k) ∉ names)
    (hprev : ∀ j, 1 ≤ j → j < k → ("New_" ++ toString j) ∈ names) :
    newColumnName names = some ("New_" ++ toString k) := by
  have hloop := newColumnNameLoop_first_free names 1000 1 k (by omega) h1 h2 hfree hprev
  unfold newColumnName
  rw [hloop]
  dsimp only
  rw [if_pos (by omega)]

/-- Claim C8 (amended): the generator scans `n = 1` through 999 (not 1000)
and returns the first `"New_<n>"` that is not already a field name; it fails
(returns `None`) exactly when `New_1` … `New_999` are all already taken.
`New_1000` is never returned, even when it is free, because the source's
final `i <= 1000` test runs on the already incremented loop counter. -/
theorem newColumnName_spec (names : List String) :
    (newColumnName names = none ↔
      (∀ k, 1 ≤ k → k ≤ 999 → ("New_" ++ toString k) ∈ names)) ∧
    (∀ k, 1 ≤ k → k ≤ 999 → ("New_" ++ toString k) ∉ names →
      (∀ j, 1 ≤ j → j < k → ("New_" ++ toString j) ∈ names) →
      newColumnName names = some ("New_" ++ toString k)) :=
  ⟨newColumnName_none_iff names,
    fun k h1 h2 hfree hprev => newColumnName_first_free names k h1 h2 hfree hprev⟩

theorem newColumnName_spec_witness :
    newColumnName ["New_1"] = some ("New_" ++ toString 2) :=
  (newColumnName_spec ["New_1"]).2 2 (by decide) (by decide) (by decide)
    (fun j hj1 hj2 => by
      have hj : j = 1 := by omega
      subst hj
      decide)

set_option maxRecDepth 1000000 in
/-- Claim C8 counterexample: with `New_1` … `New_999` all taken and
`New_1000` free, the claim says the generator returns `"New_1000"`; the code
returns `None`. -/
theorem newColumnName_cex : newColumnName bigNames = none ∧ "New_1000" ∉ bigNames := by
  constructor
  · rw [newColumnName_none_iff]
    intro k hk1 hk2
    unfold bigNames
    refine List.mem_map.mpr ⟨k - 1, List.mem_range.mpr (by omega), ?_⟩
    have hk : k - 1 + 1 = k := by omega
    rw [hk]
  · decide

/-! ### Hierarchy: attach and child attributes (Claims C7 and C10) -/

theorem getD_set_eq2 {β : Type} (l : List β) (i : Nat) (a d : β) (h : i < l.length) :
    (l.set i a).getD i d = a := by
  rw [List.getD_eq_getD_get?, List.get?_set_eq]
  simp [h]

theorem getD_set_ne2 {β : Type} (l : List β) (i j : Nat) (a d : β) (h : j ≠ i) :
    (l.set i a).getD j d = l.getD j d := by
  rw [List.getD_eq_getD_get?, List.getD_eq_getD_get?,
    List.get?_set_ne _ _ (fun he => h he.symm)]

theorem getD_append_left2 {β : Type} (l1 l2 : List β) (i : Nat) (d : β)
    (h : i < l1.length) : (l1 ++ l2).getD i d = l1.getD i d := by
  rw [List.getD_eq_getD_get?, List.getD_eq_getD_get?, List.get?_append h]

theorem getD_append_self2 {β : Type} (l : List β) (a d : β) :
    (l ++ [a]).getD l.length d = a := by
  rw [List.getD_eq_getD_get?, List.get?_concat_length]
  rfl

theorem updNode_nodes_length (w : HWorld) (i : Nat) (f : HNode → HNode) :
    (updNode w i f).nodes.length = w.nodes.length := by
  simp [updNode]

theorem updNode_dicts (w : HWorld) (i : Nat) (f : HNode → HNode) :
    (updNode w i f).dicts = w.dicts := rfl

theorem getNode_dicts (w : HWorld) (D : List (List (String × Int))) (i : Nat) :
    getNode { w with dicts := D } i = getNode w i := rfl

theorem getNode_updNode (w : HWorld) (i j : Nat) (f : HNode → HNode)
    (hi : i < w.nodes.length) :
    getNode (updNode w i f) j = if j = i then f (getNode w i) else getNode w j := by
  unfold getNode updNode
  dsimp only
  by_cases hji : j = i
  · subst hji
    rw [if_pos rfl, getD_set_eq2 _ _ _ _ hi]
    rfl
  · rw [if_neg hji, getD_set_ne2 _ _ _ _ _ hji]

theorem childIds_setParentW (w : HWorld) (c : Nat) (po : Option Nat) (j : Nat)
    (hc : c < w.nodes.length) : childIds (setParentW w c po) j = childIds w j := by
  unfold childIds setParentW
  rw [getNode_updNode _ _ _ _ hc]
  split
  · rename_i h
    rw [h]
  · rfl

theorem lookup_isSome_any {β : Type} (m : List (String × β)) (k : String) :
    m.any (fun kv => kv.1 == k) = (m.lookup k).isSome := by
  induction m with
  | nil => rfl
  | cons kv t ih =>
    cases kv with
    | mk k1 v =>
      rw [List.any_cons]
      cases hh : (k == k1) with
      | true =>
        have h1 : (k1 == k) = true := by
          rw [beq_iff_eq] at hh ⊢
          exact hh.symm
        simp [List.lookup, hh, h1]
      | false =>
        have h1 : (k1 == k) = false := by
          rw [beq_eq_false_iff_ne] at hh ⊢
          exact fun e => hh e.symm
        simp [List.lookup, hh, h1, ih]

theorem lookup_append_left_none {β : Type} (m1 m2 : List (String × β)) (k : String)
    (h : m1.lookup k = none) : (m1 ++ m2).lookup k = m2.lookup k := by
  induction m1 with
  | nil => rfl
  | cons kv t ih =>
    cases kv with
    | mk k1 v =>
      cases hh : (k == k1) with
      | true => simp [List.lookup, hh] at h
      | false =>
        simp only [List.lookup, hh] at h ⊢
        exact ih h

/-- Claim C10: `setChildAttributes(child, key = value)` mutates only the
defensive copy returned by `attributesOfChild`: the child's stored attribute
dict is unchanged, and `attributesOfChild` observes the same map after the
call as before it. -/
theorem setChildAttributes_frame (w : HWorld) (p c : Nat)
    (kwargs : List (String × Int)) (cid r : Nat)
    (hfind : (getNode w p).children.find? (fun it => it.1 == c) = some (cid, r))
    (hr : r < w.dicts.length) :
    (setChildAttributesW w p c kwargs).dicts.getD r [] = w.dicts.getD r [] ∧
      attrsValue (setChildAttributesW w p c kwargs) p c = attrsValue w p c := by
  have hworld : setChildAttributesW w p c kwargs =
      { w with dicts := ((w.dicts ++ [w.dicts.getD r []]).set w.dicts.length
          (kwargs.foldl (fun m kv => dictInsert m kv.1 kv.2)
            ((w.dicts ++ [w.dicts.getD r []]).getD w.dicts.length []))) } := by
    unfold setChildAttributesW attributesOfChildW
    rw [hfind]
  rw [hworld]
  have hdict : ((w.dicts ++ [w.dicts.getD r []]).set w.dicts.length
      (kwargs.foldl (fun m kv => dictInsert m kv.1 kv.2)
        ((w.dicts ++ [w.dicts.getD r []]).getD w.dicts.length []))).getD r [] =
      w.dicts.getD r [] := by
    rw [getD_set_ne2 _ _ _ _ _ (by omega), getD_append_left2 _ _ _ _ hr]
  constructor
  · exact hdict
  · unfold attrsValue
    rw [getNode_dicts, hfind]
    simp only [Option.map_some']
    rw [hdict]

theorem removeChildW_dicts (w : HWorld) (q c : Nat) :
    (removeChildW w q c).dicts = w.dicts := by
  unfold removeChildW
  split <;> rfl

theorem removeChildW_nodes_length (w : HWorld) (q c : Nat) :
    (removeChildW w q c).nodes.length = w.nodes.length := by
  unfold removeChildW
  split
  · rw [updNode_nodes_length]
    exact updNode_nodes_length _ _ _
  · rfl

theorem children_setParentW (w : HWorld) (c : Nat) (po : Option Nat) (j : Nat)
    (hc : c < w.nodes.length) :
    (getNode (setParentW w c po) j).children = (getNode w j).children := by
  unfold setParentW
  rw [getNode_updNode _ _ _ _ hc]
  split
  · rename_i h
    rw [h]
  · rfl

theorem getNode_setParentW_ne (w : HWorld) (c : Nat) (po : Option Nat) (j : Nat)
    (hc : c < w.nodes.length) (hj : j ≠ c) :
    getNode (setParentW w c po) j = getNode w j := by
  unfold setParentW
  rw [getNode_updNode _ _ _ _ hc, if_neg hj]

theorem getNode_removeChildW_ne (w : HWorld) (q c j : Nat) (hq : q < w.nodes.length)
    (hc : c < w.nodes.length) (hjq : j ≠ q) (hjc : j ≠ c) :
    getNode (removeChildW w q c) j = getNode w j := by
  unfold removeChildW
  split
  · rw [getNode_updNode _ _ _ _ (by
      unfold setParentW
      rw [updNode_nodes_length]
      exact hq), if_neg hjq]
    exact getNode_setParentW_ne w c none j hc hjc
  · rfl

theorem find?_append_none {β : Type} (l1 l2 : List β) (f : β → Bool)
    (h : l1.find? f = none) : (l1 ++ l2).find? f = l2.find? f := by
  induction l1 with
  | nil => rfl
  | cons x t ih =>
    cases hx : f x with
    | true =>
      rw [List.find?_cons_of_pos _ hx] at h
      exact absurd h (by simp)
    | false =>
      have hx2 : ¬f x = true := by rw [hx]; exact Bool.false_ne_true
      rw [List.find?_cons_of_neg _ hx2] at h
      rw [List.cons_append, List.find?_cons_of_neg _ hx2]
      exact ih h

/-- Claim C7: `addChild(child)` fails with `InvalidHierarchy` exactly when
the child is the node itself or already a direct child; otherwise the child
is appended to the child list with a `"row"` attribute defaulting to the
parent's cursor at call time when not supplied, and a child that already had
a parent is first detached: the old parent's child list no longer contains
it while the new parent's does. -/
theorem addChild_spec (w : HWorld) (p c : Nat) (kwargs : List (String × Int))
    (hp : p < w.nodes.length) (hc : c < w.nodes.length)
    (hcoh : ∀ q, (getNode w c).parent = some q →
      q < w.nodes.length ∧ c ∈ childIds w q) :
    (addChildW w p c kwargs = .error .invalidHierarchy ↔ (c = p ∨ c ∈ childIds w p)) ∧
      (c ≠ p → c ∉ childIds w p →
        ∃ w4, addChildW w p c kwargs = .ok w4 ∧
          childIds w4 p = childIds w p ++ [c] ∧
          ((attrsValue w4 p c).getD []).lookup "row" =
            some ((kwargs.lookup "row").getD (getNode w p).index) ∧
          (getNode w4 c).parent = some p ∧
          ∀ q, (getNode w c).parent = some q → c ∉ childIds w4 q) := by
  constructor
  · unfold addChildW
    by_cases h1 : c = p
    · rw [if_pos h1]
      simp [h1]
    · rw [if_neg h1]
      by_cases h2 : c ∈ childIds w p
      · rw [if_pos h2]
        simp [h1, h2]
      · rw [if_neg h2]
        simp [h1, h2]
  · intro h1 h2
    have hpc : p ≠ c := fun e => h1 e.symm
    -- name the intermediate worlds
    set w1 : HWorld := { w with dicts := w.dicts ++ [attachAttrs w p kwargs] } with hw1
    have hgn1 : ∀ j, getNode w1 j = getNode w j := fun j => rfl
    have hlen1 : w1.nodes.length = w.nodes.length := rfl
    set w2 : HWorld :=
      (match (getNode w1 c).parent with
        | some q => removeChildW w1 q c
        | none => w1) with hw2
    set w3 : HWorld := setParentW w2 c (some p) with hw3
    have hrun : addChildW w p c kwargs = .ok (appendChild w3 p c w.dicts.length) := by
      unfold addChildW
      rw [if_neg h1, if_neg h2]
    -- facts about w2, uniform in the parent case split
    have hlen2 : w2.nodes.length = w.nodes.length := by
      rw [hw2]
      cases hpar : (getNode w1 c).parent with
      | none => exact hlen1
      | some q => rw [removeChildW_nodes_length]
    have hdicts2 : w2.dicts = w1.dicts := by
      rw [hw2]
      cases hpar : (getNode w1 c).parent with
      | none => rfl
      | some q => rw [removeChildW_dicts]
    have hgn2p : getNode w2 p = getNode w p := by
      rw [hw2]
      cases hpar : (getNode w1 c).parent with
      | none => exact hgn1 p
      | some q =>
        have hq := hcoh q hpar
        have hqp : q ≠ p := by
          intro he
          exact h2 (he ▸ hq.2)
        rw [getNode_removeChildW_ne w1 q c p hq.1 hc (fun e => hqp e.symm) hpc]
        rfl
    have hlen3 : w3.nodes.length = w.nodes.length := by
      rw [hw3]
      unfold setParentW
      rw [updNode_nodes_length]
      exact hlen2
    have hdicts3 : w3.dicts = w1.dicts := by
      rw [hw3]
      unfold setParentW
      rw [updNode_dicts]
      exact hdicts2
    have hgn3p : getNode w3 p = getNode w p := by
      rw [hw3, getNode_setParentW_ne w2 c (some p) p (by rw [hlen2]; exact hc) hpc]
      exact hgn2p
    have hchild4 : (getNode (appendChild w3 p c w.dicts.length) p).children =
        (getNode w p).children ++ [(c, w.dicts.length)] := by
      unfold appendChild
      rw [getNode_updNode _ _ _ _ (by rw [hlen3]; exact hp), if_pos rfl, hgn3p]
    refine ⟨appendChild w3 p c w.dicts.length, hrun, ?_, ?_, ?_, ?_⟩
    · unfold childIds
      rw [hchild4]
      simp [childIds]
    · unfold attrsValue
      rw [hchild4]
      have hnone : (getNode w p).children.find? (fun it => it.1 == c) = none := by
        rw [List.find?_eq_none]
        intro it hit
        simp only [beq_iff_eq]
        intro he
        exact h2 (List.mem_map.mpr ⟨it, hit, he⟩)
      rw [find?_append_none _ _ _ hnone]
      have hfind1 : ([((c, w.dicts.length) : Nat × Nat)]).find?
          (fun it => it.1 == c) = some (c, w.dicts.length) := by
        simp [List.find?_cons]
      rw [hfind1]
      simp only [Option.map_some']
      have hdicts4 : (appendChild w3 p c w.dicts.length).dicts = w1.dicts := hdicts3
      rw [hdicts4]
      dsimp only
      rw [Option.getD_some]
      have hgetattrs : (w.dicts ++ [attachAttrs w p kwargs]).getD w.dicts.length [] =
          attachAttrs w p kwargs := getD_append_self2 _ _ _
      rw [hgetattrs]
      unfold attachAttrs
      rw [lookup_isSome_any]
      cases hrow : kwargs.lookup "row" with
      | some v =>
        rw [if_pos (show ((some v : Option Int)).isSome = true from rfl)]
        rw [hrow]
        rfl
      | none =>
        rw [if_neg (show ¬((none : Option Int)).isSome = true from by simp)]
        rw [lookup_append_left_none _ _ _ hrow]
        simp [List.lookup]
    · unfold appendChild
      rw [getNode_updNode _ _ _ _ (by rw [hlen3]; exact hp), if_neg (fun e => h1 e)]
      rw [hw3]
      unfold setParentW
      rw [getNode_updNode _ _ _ _ (by rw [hlen2]; exact hc), if_pos rfl]
    · intro q hparq
      have hq := hcoh q hparq
      have hqp : q ≠ p := by
        intro he
        exact h2 (he ▸ hq.2)
      -- childIds of q in the final world
      unfold appendChild
      unfold childIds
      rw [getNode_updNode _ _ _ _ (by rw [hlen3]; exact hp), if_neg hqp]
      rw [hw3, children_setParentW w2 c (some p) q (by rw [hlen2]; exact hc)]
      have hparq1 : (getNode w1 c).parent = some q := hparq
      have hw2q : w2 = removeChildW w1 q c := by rw [hw2, hparq1]
      rw [hw2q]
      unfold removeChildW
      rw [if_pos (show c ∈ childIds w1 q from hq.2)]
      rw [getNode_updNode _ _ _ _ (show q < (setParentW w1 c none).nodes.length by
        unfold setParentW
        rw [updNode_nodes_length]
        exact hq.1), if_pos rfl]
      intro hmem
      rw [List.mem_map] at hmem
      obtain ⟨it, hit, hfst⟩ := hmem
      rw [List.mem_filter] at hit
      have hne := hit.2
      simp only [ne_eq, decide_not, Bool.not_eq_eq_eq_not, Bool.not_true,
        decide_eq_false_iff_not] at hne
      exact hne hfst

theorem addChild_spec_witness :
    (addChildW w0 0 1 [] = .error .invalidHierarchy ↔
        ((1 : Nat) = 0 ∨ 1 ∈ childIds w0 0)) ∧
      ((1 : Nat) ≠ 0 → (1 : Nat) ∉ childIds w0 0 →
        ∃ w4, addChildW w0 0 1 [] = .ok w4 ∧
          childIds w4 0 = childIds w0 0 ++ [1] ∧
          ((attrsValue w4 0 1).getD []).lookup "row" =
            some ((([] : List (String × Int)).lookup "row").getD (getNode w0 0).index) ∧
          (getNode w4 1).parent = some 0 ∧
          ∀ q, (getNode w0 1).parent = some q → 1 ∉ childIds w4 q) :=
  addChild_spec w0 0 1 [] (by decide) (by decide)
    (by
      intro q hq
      have h2 : (2 : Nat) = q := by
        have h3 : (some 2 : Option Nat) = some q := hq
        injection h3
      subst h2
      exact ⟨by decide, by decide⟩)

theorem setChildAttributes_frame_witness :
    (setChildAttributesW w0 2 1 [("row", 9)]).dicts.getD 0 [] = w0.dicts.getD 0 [] ∧
      attrsValue (setChildAttributesW w0 2 1 [("row", 9)]) 2 1 = attrsValue w0 2 1 :=
  setChildAttributes_frame w0 2 1 [("row", 9)] 1 0 (by decide) (by decide)

/-! ### names() with negative levels (Claim C9) -/

theorem mem_unionAll (x : String) (ls : List (List String)) :
    x ∈ unionAll ls ↔ ∃ l ∈ ls, x ∈ l := by
  simp [unionAll]

theorem namesF_true_unfold (t : DCTree) (u : Int) :
    namesF t true u =
      if (if u < 0 then max 0 ((t.depth : Int) + 1 + u) else u) = 0 ∨ t.children.isEmpty
      then t.fieldNames
      else t.fieldNames ++ unionAll (t.children.attach.map (fun c =>
        namesF c.1 true ((if u < 0 then max 0 ((t.depth : Int) + 1 + u) else u) - 1))) := by
  rw [namesF]
  rfl

theorem namesF_nonneg_unfold (t : DCTree) (u : Int) (hu : 0 ≤ u) :
    namesF t true u =
      if u = 0 ∨ t.children.isEmpty then t.fieldNames
      else t.fieldNames ++ unionAll (t.children.attach.map (fun c =>
        namesF c.1 true (u - 1))) := by
  rw [namesF_true_unfold, if_neg (not_lt.mpr hu)]

theorem namesF_nonneg_mem :
    ∀ (n : Nat) (t : DCTree), sizeOf t ≤ n → ∀ (u : Int), 0 ≤ u → ∀ x,
      (x ∈ namesF t true u ↔ x ∈ namesToLevel t u.toNat) := by
  intro n
  induction n with
  | zero =>
    intro t ht
    exfalso
    cases t with
    | mk ns cs =>
      rw [DCTree.mk.sizeOf_spec] at ht
      omega
  | succ n ih =>
    intro t ht u hu x
    have hsize : ∀ c ∈ t.children, sizeOf c ≤ n := by
      intro c hcmem
      cases t with
      | mk ns cs =>
        have h1 := List.sizeOf_lt_of_mem (by simpa [DCTree.children] using hcmem)
        rw [DCTree.mk.sizeOf_spec] at ht
        omega
    rw [namesF_nonneg_unfold t u hu]
    by_cases hu0 : u = 0
    · subst hu0
      rw [if_pos (Or.inl rfl)]
      have h0 : (0 : Int).toNat = 0 := rfl
      rw [h0, namesToLevel]
    · by_cases hcs : t.children.isEmpty
      · rw [if_pos (Or.inr hcs)]
        have hsplit : u.toNat = (u.toNat - 1) + 1 := by omega
        rw [hsplit, namesToLevel]
        rw [List.isEmpty_iff] at hcs
        rw [hcs]
        simp
      · rw [if_neg (by
          rintro (h | h)
          · exact hu0 h
          · exact hcs h)]
        have hsplit : u.toNat = (u.toNat - 1) + 1 := by omega
        rw [hsplit, namesToLevel]
        rw [List.mem_append, List.mem_append, mem_unionAll, List.mem_flatten]
        have htn : (u - 1).toNat = u.toNat - 1 := by omega
        constructor
        · rintro (hns | ⟨l, hl, hxl⟩)
          · exact Or.inl hns
          · rw [List.mem_map] at hl
            obtain ⟨⟨c, hcmem⟩, _, hfc⟩ := hl
            refine Or.inr ⟨namesToLevel c (u.toNat - 1), List.mem_map.mpr ⟨c, hcmem, rfl⟩, ?_⟩
            have := (ih c (hsize c hcmem) (u - 1) (by omega) x).mp (by rw [hfc]; exact hxl)
            rwa [htn] at this
        · rintro (hns | ⟨l, hl, hxl⟩)
          · exact Or.inl hns
          · rw [List.mem_map] at hl
            obtain ⟨c, hcmem, hfc⟩ := hl
            refine Or.inr ⟨namesF c true (u - 1),
              List.mem_map.mpr ⟨⟨c, hcmem⟩, List.mem_attach _ _, rfl⟩, ?_⟩
            refine (ih c (hsize c hcmem) (u - 1) (by omega) x).mpr ?_
            rw [htn, hfc]
            exact hxl

theorem namesF_neg_eq (t : DCTree) (k : Int) (hk : k < 0) :
    namesF t true k = namesF t true (max 0 ((t.depth : Int) + 1 + k)) := by
  rw [namesF_true_unfold t k, if_pos hk,
    namesF_nonneg_unfold t _ (le_max_left 0 _)]

theorem depth_leaf (ns : List String) : (DCTree.mk ns []).depth = 0 := by
  rw [DCTree.depth]
  rfl

theorem depth_one (ns : List String) (c : DCTree) :
    (DCTree.mk ns [c]).depth = 1 + c.depth := by
  rw [DCTree.depth]
  rfl

/-- Claim C9: with `includeChildren = True` and a negative `upToLevel = k`,
`names` returns (up to set-union membership) the node's own column names
together with the column names of its descendants down to the level obtained
by counting `k` back from the deepest common level of the tree, i.e. level
`max 0 (depth + 1 + k)`. -/
theorem names_upToLevel_spec (t : DCTree) (k : Int) (hk : k < 0) (x : String) :
    (x ∈ namesF t true k ↔ x ∈ namesToLevel t (max 0 ((t.depth : Int) + 1 + k)).toNat) := by
  rw [namesF_neg_eq t k hk]
  exact namesF_nonneg_mem (sizeOf t) t le_rfl _ (le_max_left 0 _) x

theorem names_upToLevel_spec_witness : "b" ∈ namesF tEx true (-1) := by
  rw [names_upToLevel_spec tEx (-1) (by decide) "b"]
  rw [show (max 0 ((tEx.depth : Int) + 1 + (-1))).toNat = 1 from by
    rw [show tEx.depth = 1 from by rw [tEx, depth_one, depth_leaf]]
    decide]
  decide

end Paramp
